import Mathlib

/-!
# go-questionary: prompt state machines and the schema orchestrator

A shallow embedding of `prompt/list.go`, `prompt/text.go`, `prompt/password.go`,
`prompt/confirm.go`, `prompt/prompt.go` and `prompt/struct.go`.

Conventions of the embedding

* A Go `string` is a list of Unicode code points (`Str`); literals are written
  `"enter".toList`.
* A Go `int` is an `Int` kept in the 64-bit range: every arithmetic operation of
  the source goes through `wrapInt`.
* A Go `error` is `Option Str`: `none` is `nil`, `some e` carries the message.
* Methods with a pointer receiver that assign to the receiver return the
  updated receiver next to their result.
* The terminal (bubbletea's `tea.Program`, bubbles' `textinput`) is outside the
  repository: the key message carries what the source observes of it
  (`msg.Type`, `msg.String()`), and the text input is a value with an update
  function taken as a parameter.
-/

namespace Questionary

/-! ## Go values -/

/-- A Go string, as the list of its code points. -/
abbrev Str := List Char

/-- Largest value of a Go `int` (64 bit). -/
def intMax : Int := 9223372036854775807

/-- Smallest value of a Go `int` (64 bit). -/
def intMin : Int := -9223372036854775808

/-- Two's-complement wrap-around of a mathematical integer into the range of `int`. -/
def wrapInt (x : Int) : Int :=
  (x + 9223372036854775808) % 18446744073709551616 - 9223372036854775808

/-- Go `a + b` on `int`. -/
def addInt (a b : Int) : Int := wrapInt (a + b)

/-- Go `a - b` on `int`. -/
def subInt (a b : Int) : Int := wrapInt (a - b)

/-- Go `len(xs)` of a slice. -/
def len {α : Type} (xs : List α) : Int := (xs.length : Int)

/-- Go `xs[i]` on a slice with an `int` index: `none` stands for the run-time
panic "index out of range". -/
def index {α : Type} (xs : List α) (i : Int) : Option α :=
  if i < 0 then none else xs.get? i.toNat

/-! ## bubbletea messages and commands -/

/-- The key types of `tea.KeyMsg` that the source distinguishes. -/
inductive KeyType where
  | KeyEnter
  | KeyCtrlC
  | KeyUp
  | KeyDown
  | KeyRunes
  | KeyOther (code : Nat)
  deriving DecidableEq, Repr

/-- A `tea.KeyMsg`, reduced to what the source reads of it: `msg.Type` (field `Type_`) and the
result of `msg.String()` (field `name`). -/
structure KeyMsg where
  Type_ : KeyType
  name : Str
  deriving DecidableEq, Repr

/-- A `tea.Msg`: a key press or any other message of the runtime. -/
inductive Msg where
  | key (k : KeyMsg)
  | other (tag : Nat)
  deriving DecidableEq, Repr

/-- A `tea.Cmd` as far as the event loop is concerned: `nil`, `tea.Quit`, or a
command of the embedded text input (cursor blink and the like). -/
inductive Cmd where
  | nil
  | Quit
  | other (tag : Nat)
  deriving DecidableEq, Repr

/-- Handle of a `*tea.Program` created by `tea.NewProgram`. -/
inductive Program where
  | handle
  deriving DecidableEq, Repr

/-! ## prompt.go -/

/-- A `lipgloss.Style`, reduced to its foreground colour. -/
structure LipglossStyle where
  Foreground : Str
  deriving DecidableEq, Repr

/-- Visual appearance of prompts (`Style`). -/
structure Style where
  QuestionStyle : LipglossStyle
  AnswerStyle : LipglossStyle
  SelectionStyle : LipglossStyle
  ErrorStyle : LipglossStyle
  FocusedStyle : LipglossStyle
  UnfocusedStyle : LipglossStyle
  deriving DecidableEq, Repr

/-- The default styling (`DefaultStyle`). -/
def DefaultStyle : Style :=
  { QuestionStyle := ⟨"69".toList⟩
    AnswerStyle := ⟨"39".toList⟩
    SelectionStyle := ⟨"212".toList⟩
    ErrorStyle := ⟨"196".toList⟩
    FocusedStyle := ⟨"212".toList⟩
    UnfocusedStyle := ⟨"241".toList⟩ }

/-- Common part of all prompts (`BasePrompt`). A `nil` validator is `none`; a
validator returns `none` for `nil` and `some e` for an error. -/
structure BasePrompt where
  Question : Str
  Default : Str
  Validator : Option (Str → Option Str)
  Style : Style
  Program : Option Program

/-- Constructor `NewBasePrompt`: every field but the question and the style
keeps its zero value. -/
def NewBasePrompt (question : Str) : BasePrompt :=
  { Question := question
    Default := []
    Validator := none
    Style := DefaultStyle
    Program := none }

/-! ## list.go -/

/-- A list selection prompt (`ListPrompt`). -/
structure ListPrompt extends BasePrompt where
  Options : List Str
  Selected : Int
  PageSize : Int
  ShowNumbers : Bool

/-- Constructor `NewList`. -/
def NewList (question : Str) (options : List Str) : ListPrompt :=
  { toBasePrompt := NewBasePrompt question
    Options := options
    Selected := 0
    PageSize := 7
    ShowNumbers := true }

/-- State of a running list prompt (`listModel`). -/
structure listModel where
  prompt : ListPrompt
  cursor : Int
  offset : Int

/-- Transition function `listModel.Update`. -/
def listModel.Update (m : listModel) (msg : Msg) : listModel × Cmd :=
  match msg with
  | .key k =>
    if k.name = "up".toList ∨ k.name = "k".toList then
      if m.cursor > 0 then
        let m1 : listModel := { m with cursor := subInt m.cursor 1 }
        if m1.cursor < m1.offset then
          ({ m1 with offset := m1.cursor }, Cmd.nil)
        else
          (m1, Cmd.nil)
      else
        (m, Cmd.nil)
    else if k.name = "down".toList ∨ k.name = "j".toList then
      if m.cursor < subInt (len m.prompt.Options) 1 then
        let m1 : listModel := { m with cursor := addInt m.cursor 1 }
        if m1.cursor ≥ addInt m1.offset m1.prompt.PageSize then
          ({ m1 with offset := addInt (subInt m1.cursor m1.prompt.PageSize) 1 }, Cmd.nil)
        else
          (m1, Cmd.nil)
      else
        (m, Cmd.nil)
    else if k.name = "enter".toList then
      (m, Cmd.Quit)
    else if k.name = "ctrl+c".toList then
      (m, Cmd.Quit)
    else
      (m, Cmd.nil)
  | .other _ => (m, Cmd.nil)

/-- The prompt as `ListPrompt.Run` leaves it once the options are known to be
non-empty: the program handle is stored. -/
def ListPrompt.prepared (p : ListPrompt) : ListPrompt :=
  { p with Program := some Program.handle }

/-- The model `ListPrompt.Run` hands to `tea.NewProgram`: `cursor` is
`p.Selected`, `offset` keeps its zero value. The model holds a pointer to the
prompt, so it sees the program handle stored into the prompt. -/
def ListPrompt.initialModel (p : ListPrompt) : listModel :=
  { prompt := p.prepared, cursor := p.Selected, offset := 0 }

/-- The state reached from `m` after feeding the messages `msgs` to
`listModel.Update` one after the other. -/
def listModel.feed (m : listModel) (msgs : List Msg) : listModel :=
  msgs.foldl (fun s e => (listModel.Update s e).1) m

/-- The ListState invariant of the data model, with the end of the window
`offset + PageSize` computed as the program computes it, on `int`. For values of
type `int` this is the invariant on mathematical integers (`listModel.SpecInv`)
together with `offset + PageSize ≤ intMax` (`listModel_Inv_iff`). -/
def listModel.Inv (m : listModel) : Prop :=
  0 ≤ m.cursor ∧ m.cursor < len m.prompt.Options ∧
  0 ≤ m.offset ∧ m.offset ≤ m.cursor ∧
  m.cursor < addInt m.offset m.prompt.PageSize

/-- The two cursor movements of a list prompt. -/
inductive Move where
  | up
  | down
  deriving DecidableEq, Repr

/-- The transition of section 4.4 of the specification, on mathematical
integers, for `n` options: the new cursor and the new window offset.
"up": `cursor = max(cursor-1, 0)`, `windowOffset = min(windowOffset, cursor)`;
"down": `cursor = min(cursor+1, n-1)`,
`windowOffset = max(windowOffset, cursor-pageSize+1)`. -/
def specMove (n pageSize cursor offset : Int) : Move → Int × Int
  | Move.up =>
    let c := max (cursor - 1) 0
    (c, min offset c)
  | Move.down =>
    let c := min (cursor + 1) (n - 1)
    (c, max offset (c - pageSize + 1))

/-! ## The event loop -/

/-- What the terminal session delivers next: a message for the running program,
or a failure of the session with its error. -/
inductive Input where
  | msg (m : Msg)
  | fail (e : Str)
  deriving DecidableEq, Repr

/-- Modelled from the spec: the event loop of `tea.Program.Run` (section 4.5),
which is not part of the repository. The loop blocks for the next input, applies
the transition function, and returns the model as soon as the transition asks to
quit; a session failure ends the run with that error. The result is the pair
`(model, err)` of `Program.Run` and the input left unread; `none` means that the
input ran dry before the program quit, so `Run` never returns. -/
def programRun {M : Type} (update : M → Msg → M × Cmd) :
    M → List Input → Option ((M × Option Str) × List Input)
  | _, [] => none
  | m, Input.fail e :: rest => some ((m, some e), rest)
  | m, Input.msg x :: rest =>
    match update m x with
    | (m1, Cmd.Quit) => some ((m1, none), rest)
    | (m1, _) => programRun update m1 rest

/-- A value of type `interface{}` as the prompts return it and as a record field
holds it. -/
inductive Value where
  | str (s : Str)
  | bool (b : Bool)
  | other (type repr : Str)
  deriving DecidableEq, Repr

/-- How a call of `Run` ends: it returns the pair `(value, err)`, it panics, or
it never returns. -/
inductive RunResult where
  | returned (value : Value) (err : Option Str)
  | panicked (what : Str)
  | blocked
  deriving DecidableEq, Repr

/-- Everything a call of `Run` on a prompt of type `P` leaves behind: the prompt
after the call, the result, and the unread input. -/
structure Ran (P : Type) where
  prompt : P
  result : RunResult
  term : List Input

/-- The state reached from `m` after the messages `msgs`, provided none of them
makes the transition function ask to quit (`none` otherwise). -/
def feedNoQuit {M : Type} (update : M → Msg → M × Cmd) : M → List Msg → Option M
  | m, [] => some m
  | m, x :: xs =>
    match update m x with
    | (_, Cmd.Quit) => none
    | (m1, _) => feedNoQuit update m1 xs

/-- Method `ListPrompt.Run`. -/
def ListPrompt.Run (p : ListPrompt) (term : List Input) : Ran ListPrompt :=
  if len p.Options = 0 then
    ⟨p, RunResult.returned (Value.str []) (some "no options provided".toList), term⟩
  else
    let model := p.initialModel
    match programRun listModel.Update model term with
    | none => ⟨p.prepared, RunResult.blocked, []⟩
    | some ((_, some err), rest) =>
      ⟨p.prepared, RunResult.returned (Value.str []) (some err), rest⟩
    | some ((finalModel, none), rest) =>
      match index p.prepared.Options finalModel.cursor with
      | some s => ⟨p.prepared, RunResult.returned (Value.str s) none, rest⟩
      | none => ⟨p.prepared, RunResult.panicked "index out of range".toList, rest⟩

/-! ## text.go and password.go -/

/-- Echo modes of `textinput.Model`. -/
inductive EchoMode where
  | EchoNormal
  | EchoPassword
  | EchoNone
  deriving DecidableEq, Repr

/-- The `textinput.Model` of the bubbles library, reduced to the fields the
source touches: the buffer, the focus flag, and the echo settings. -/
structure TextInput where
  value : Str
  focus : Bool
  EchoMode : EchoMode
  EchoCharacter : Char
  deriving DecidableEq, Repr

/-- Library constructor `textinput.New`. -/
def TextInput.New : TextInput :=
  { value := [], focus := false, EchoMode := EchoMode.EchoNormal, EchoCharacter := '*' }

/-- Library method `Focus`, on a copy. -/
def TextInput.Focus (ti : TextInput) : TextInput := { ti with focus := true }

/-- Library method `SetValue`: stores the string as the buffer. -/
def TextInput.SetValue (ti : TextInput) (s : Str) : TextInput := { ti with value := s }

/-- Library method `Value`. -/
def TextInput.Value (ti : TextInput) : Str := ti.value

/-- The update function of the text input, `textinput.Model.Update`: library
code, taken as a parameter. -/
abbrev TextInputUpdate := TextInput → Msg → TextInput × Cmd

/-- A text input prompt (`TextPrompt`). -/
structure TextPrompt extends BasePrompt where
  textInput : TextInput

/-- Constructor `NewText`. -/
def NewText (question : Str) : TextPrompt :=
  let ti := TextInput.New
  let ti := ti.Focus
  { toBasePrompt := NewBasePrompt question, textInput := ti }

/-- State of a running text prompt (`textModel`). -/
structure textModel where
  prompt : TextPrompt
  textInput : TextInput
  err : Option Str

/-- Transition function `textModel.Update`. -/
def textModel.Update (tiUpdate : TextInputUpdate) (m : textModel) (msg : Msg) :
    textModel × Cmd :=
  let delegate : textModel × Cmd :=
    let r := tiUpdate m.textInput msg
    ({ m with textInput := r.1 }, r.2)
  match msg with
  | .key k =>
    match k.Type_ with
    | KeyType.KeyEnter =>
      let value := m.textInput.Value
      match m.prompt.Validator with
      | some validator =>
        match validator value with
        | some err => ({ m with err := some err }, Cmd.nil)
        | none => (m, Cmd.Quit)
      | none => (m, Cmd.Quit)
    | KeyType.KeyCtrlC => (m, Cmd.Quit)
    | _ => delegate
  | .other _ => delegate

/-- The prompt as `TextPrompt.Run` leaves it before the event loop starts: the
text input seeded with a non-empty default, and the program handle stored. -/
def TextPrompt.prepared (p : TextPrompt) : TextPrompt :=
  let p1 : TextPrompt :=
    if p.Default ≠ [] then { p with textInput := p.textInput.SetValue p.Default } else p
  { p1 with Program := some Program.handle }

/-- The model `TextPrompt.Run` hands to `tea.NewProgram`. -/
def TextPrompt.initialModel (p : TextPrompt) : textModel :=
  { prompt := p.prepared, textInput := p.prepared.textInput, err := none }

/-- Method `TextPrompt.Run`. -/
def TextPrompt.Run (tiUpdate : TextInputUpdate) (p : TextPrompt) (term : List Input) :
    Ran TextPrompt :=
  let model := p.initialModel
  match programRun (textModel.Update tiUpdate) model term with
  | none => ⟨p.prepared, RunResult.blocked, []⟩
  | some ((_, some err), rest) =>
    ⟨p.prepared, RunResult.returned (Value.str []) (some err), rest⟩
  | some ((finalModel, none), rest) =>
    ⟨p.prepared, RunResult.returned (Value.str finalModel.textInput.Value) none, rest⟩

/-- A password input prompt (`PasswordPrompt`). -/
structure PasswordPrompt extends BasePrompt where
  textInput : TextInput

/-- Constructor `NewPassword`: the input is masked with the bullet character
(U+2022; the source file holds its bytes in a damaged encoding). -/
def NewPassword (question : Str) : PasswordPrompt :=
  let ti := TextInput.New
  let ti := ti.Focus
  let ti := { ti with EchoMode := EchoMode.EchoPassword }
  let ti := { ti with EchoCharacter := '•' }
  { toBasePrompt := NewBasePrompt question, textInput := ti }

/-- State of a running password prompt (`passwordModel`). -/
structure passwordModel where
  prompt : PasswordPrompt
  textInput : TextInput
  err : Option Str

/-- Transition function `passwordModel.Update`. -/
def passwordModel.Update (tiUpdate : TextInputUpdate) (m : passwordModel) (msg : Msg) :
    passwordModel × Cmd :=
  let delegate : passwordModel × Cmd :=
    let r := tiUpdate m.textInput msg
    ({ m with textInput := r.1 }, r.2)
  match msg with
  | .key k =>
    match k.Type_ with
    | KeyType.KeyEnter =>
      let value := m.textInput.Value
      match m.prompt.Validator with
      | some validator =>
        match validator value with
        | some err => ({ m with err := some err }, Cmd.nil)
        | none => (m, Cmd.Quit)
      | none => (m, Cmd.Quit)
    | KeyType.KeyCtrlC => (m, Cmd.Quit)
    | _ => delegate
  | .other _ => delegate

/-- The prompt as `PasswordPrompt.Run` leaves it before the event loop starts. -/
def PasswordPrompt.prepared (p : PasswordPrompt) : PasswordPrompt :=
  let p1 : PasswordPrompt :=
    if p.Default ≠ [] then { p with textInput := p.textInput.SetValue p.Default } else p
  { p1 with Program := some Program.handle }

/-- The model `PasswordPrompt.Run` hands to `tea.NewProgram`. -/
def PasswordPrompt.initialModel (p : PasswordPrompt) : passwordModel :=
  { prompt := p.prepared, textInput := p.prepared.textInput, err := none }

/-- Method `PasswordPrompt.Run`. -/
def PasswordPrompt.Run (tiUpdate : TextInputUpdate) (p : PasswordPrompt)
    (term : List Input) : Ran PasswordPrompt :=
  let model := p.initialModel
  match programRun (passwordModel.Update tiUpdate) model term with
  | none => ⟨p.prepared, RunResult.blocked, []⟩
  | some ((_, some err), rest) =>
    ⟨p.prepared, RunResult.returned (Value.str []) (some err), rest⟩
  | some ((finalModel, none), rest) =>
    ⟨p.prepared, RunResult.returned (Value.str finalModel.textInput.Value) none, rest⟩

/-! ## confirm.go -/

/-- A yes/no confirmation prompt (`ConfirmPrompt`). -/
structure ConfirmPrompt extends BasePrompt where
  DefaultValue : Bool

/-- Constructor `NewConfirm`: `DefaultValue` keeps its zero value. -/
def NewConfirm (question : Str) : ConfirmPrompt :=
  { toBasePrompt := NewBasePrompt question, DefaultValue := false }

/-- State of a running confirmation prompt (`confirmModel`). -/
structure confirmModel where
  prompt : ConfirmPrompt
  value : Bool

/-- Transition function `confirmModel.Update`. -/
def confirmModel.Update (m : confirmModel) (msg : Msg) : confirmModel × Cmd :=
  match msg with
  | .key k =>
    if k.name = "y".toList ∨ k.name = "Y".toList then
      ({ m with value := true }, Cmd.Quit)
    else if k.name = "n".toList ∨ k.name = "N".toList then
      ({ m with value := false }, Cmd.Quit)
    else if k.name = "enter".toList then
      ({ m with value := m.prompt.DefaultValue }, Cmd.Quit)
    else if k.name = "ctrl+c".toList then
      (m, Cmd.Quit)
    else
      (m, Cmd.nil)
  | .other _ => (m, Cmd.nil)

/-- The prompt as `ConfirmPrompt.Run` leaves it before the event loop starts. -/
def ConfirmPrompt.prepared (p : ConfirmPrompt) : ConfirmPrompt :=
  { p with Program := some Program.handle }

/-- The model `ConfirmPrompt.Run` hands to `tea.NewProgram`. -/
def ConfirmPrompt.initialModel (p : ConfirmPrompt) : confirmModel :=
  { prompt := p.prepared, value := p.DefaultValue }

/-- Method `ConfirmPrompt.Run`. -/
def ConfirmPrompt.Run (p : ConfirmPrompt) (term : List Input) : Ran ConfirmPrompt :=
  let model := p.initialModel
  match programRun confirmModel.Update model term with
  | none => ⟨p.prepared, RunResult.blocked, []⟩
  | some ((_, some err), rest) =>
    ⟨p.prepared, RunResult.returned (Value.bool false) (some err), rest⟩
  | some ((finalModel, none), rest) =>
    ⟨p.prepared, RunResult.returned (Value.bool finalModel.value) none, rest⟩

/-! ## struct.go -/

/-- Library predicate `unicode.IsSpace`: the code points with the White_Space
property. -/
def isSpace (c : Char) : Bool :=
  c = '\t' || c = '\n' || c.toNat = 0x0B || c.toNat = 0x0C || c = '\r' || c = ' ' ||
  c.toNat = 0x85 || c.toNat = 0xA0 || c.toNat = 0x1680 ||
  (0x2000 ≤ c.toNat && c.toNat ≤ 0x200A) ||
  c.toNat = 0x2028 || c.toNat = 0x2029 || c.toNat = 0x202F || c.toNat = 0x205F ||
  c.toNat = 0x3000

/-- Library function `strings.TrimSpace`: the string without its leading and
trailing white space. -/
def TrimSpace (s : Str) : Str :=
  ((s.dropWhile isSpace).reverse.dropWhile isSpace).reverse

/-- Library function `strings.HasPrefix`. -/
def HasPrefix (s pre : Str) : Bool := pre.isPrefixOf s

/-- Library function `strings.HasSuffix`. -/
def HasSuffix (s suf : Str) : Bool := suf.isSuffixOf s

/-- Library function `strings.Split` for a separator of one character: the
pieces of `s` between the separators, in order; one more piece than there are
separators. -/
def Split (s : Str) (sep : Char) : List Str :=
  match s with
  | [] => [[]]
  | c :: cs =>
    if c = sep then [] :: Split cs sep
    else
      match Split cs sep with
      | [] => [[c]]
      | piece :: pieces => (c :: piece) :: pieces

/-- Go slice expression `s[lo:hi]`. The source applies it once, with bounds that
`ParsePromptTag_slice_in_range` shows to be in range, and only at ASCII
characters, where byte and code point offsets agree. -/
def slice (s : Str) (lo hi : Int) : Str :=
  (s.drop lo.toNat).take (hi - lo).toNat

/-- The parsed prompt struct tag (`PromptTag`). -/
structure PromptTag where
  Type_ : Str
  Options : List Str
  deriving DecidableEq, Repr

/-- Function `ParsePromptTag`: the pair `(*PromptTag, error)`, a `nil` pointer
being `none`. -/
def ParsePromptTag (tag : Str) : Option PromptTag × Option Str :=
  if tag = [] then
    (none, none)
  else
    let content := TrimSpace tag
    if HasPrefix content "list[".toList && HasSuffix content "]".toList then
      let options := Split (slice content 5 (subInt (len content) 1)) ','
      let options := options.map TrimSpace
      (some { Type_ := "list".toList, Options := options }, none)
    else
      (some { Type_ := content, Options := [] }, none)

/-- The declared type of a record field, as far as assignment of a prompt
result is concerned. -/
inductive GoType where
  | string
  | bool
  | emptyInterface
  | other (name : Str)
  deriving DecidableEq, Repr

/-- Dynamic type of an `interface{}` value (`reflect.ValueOf(x).Type()`). -/
def Value.typeOf : Value → GoType
  | Value.str _ => GoType.string
  | Value.bool _ => GoType.bool
  | Value.other t _ => GoType.other t

/-- One field of the target record: what `reflect` reports of it (name, declared
type, the value of the `prompt` key of its tag, whether it is exported) and its
current value. -/
structure Field where
  Name : Str
  Type_ : GoType
  Tag : Str
  Exported : Bool
  value : Value
  deriving DecidableEq, Repr

/-- The argument of `PromptFromStruct`: a pointer to a struct, or anything else. -/
inductive Target where
  | ptrStruct (fields : List Field)
  | other (kind : Str)
  deriving DecidableEq, Repr

/-- Library method `reflect.Value.Set`, as a check: the field must be settable
(exported) and the value assignable to the declared type, else `Set` panics. -/
def canSet (f : Field) (v : Value) : Bool :=
  f.Exported && (f.Type_ = v.typeOf || f.Type_ = GoType.emptyInterface)

/-- A prompt constructed by the orchestrator, with its question. -/
inductive Built where
  | text (question : Str)
  | password (question : Str)
  | confirm (question : Str)
  | list (question : Str) (options : List Str)
  deriving DecidableEq, Repr

/-- How a call of `PromptFromStruct` ends: it returns an error value, it
panics, or it never returns. -/
inductive Status where
  | returned (err : Option Str)
  | panicked (what : Str)
  | blocked
  deriving DecidableEq, Repr

/-- Outcome of one iteration of the loop of `PromptFromStruct`: go on to the
next field with this field as it now is, or leave the function. -/
inductive Step where
  | next (f : Field)
  | leave (s : Status)
  deriving DecidableEq, Repr

/-- What one iteration leaves behind: the prompts it constructed, the unread
input, and how it ended. -/
structure Stepped where
  built : List Built
  term : List Input
  step : Step
  deriving DecidableEq, Repr

/-- The end of one iteration of `PromptFromStruct`: the check of `err` and
`field.Set(reflect.ValueOf(result))`. -/
def setResult (f : Field) (built : List Built) (result : RunResult) (term : List Input) :
    Stepped :=
  match result with
  | RunResult.returned _ (some err) => ⟨built, term, Step.leave (Status.returned (some err))⟩
  | RunResult.returned v none =>
    if canSet f v then ⟨built, term, Step.next { f with value := v }⟩
    else ⟨built, term, Step.leave (Status.panicked "reflect.Set".toList)⟩
  | RunResult.panicked what => ⟨built, term, Step.leave (Status.panicked what)⟩
  | RunResult.blocked => ⟨built, term, Step.leave Status.blocked⟩

/-- The body of the loop of `PromptFromStruct` for one field. -/
def promptField (tiUpdate : TextInputUpdate) (f : Field) (term : List Input) : Stepped :=
  match ParsePromptTag f.Tag with
  | (_, some err) => ⟨[], term, Step.leave (Status.returned (some err))⟩
  | (none, none) => ⟨[], term, Step.next f⟩
  | (some tag, none) =>
    if tag.Type_ = "text".toList then
      let textPrompt := NewText f.Name
      let r := textPrompt.Run tiUpdate term
      setResult f [Built.text f.Name] r.result r.term
    else if tag.Type_ = "password".toList then
      let passwordPrompt := NewPassword f.Name
      let r := passwordPrompt.Run tiUpdate term
      setResult f [Built.password f.Name] r.result r.term
    else if tag.Type_ = "confirm".toList then
      let confirmPrompt := NewConfirm f.Name
      let r := confirmPrompt.Run term
      setResult f [Built.confirm f.Name] r.result r.term
    else if tag.Type_ = "list".toList then
      let listPrompt := NewList f.Name tag.Options
      let r := listPrompt.Run term
      setResult f [Built.list f.Name tag.Options] r.result r.term
    else
      ⟨[], term, Step.leave (Status.returned (some ("unknown prompt type: ".toList ++ tag.Type_)))⟩

/-- What a call of `PromptFromStruct` leaves behind: the fields of the record,
the prompts constructed in order, the unread input, and how the call ended. -/
structure Orchestrated where
  fields : List Field
  built : List Built
  term : List Input
  status : Status
  deriving DecidableEq, Repr

/-- The loop of `PromptFromStruct` over the fields in declaration order. -/
def promptFields (tiUpdate : TextInputUpdate) : List Field → List Input → Orchestrated
  | [], term => ⟨[], [], term, Status.returned none⟩
  | f :: fs, term =>
    let s := promptField tiUpdate f term
    match s.step with
    | Step.leave st => ⟨f :: fs, s.built, s.term, st⟩
    | Step.next f1 =>
      let r := promptFields tiUpdate fs s.term
      ⟨f1 :: r.fields, s.built ++ r.built, r.term, r.status⟩

/-- Function `PromptFromStruct`. -/
def PromptFromStruct (tiUpdate : TextInputUpdate) (v : Target) (term : List Input) :
    Orchestrated :=
  match v with
  | Target.other _ => ⟨[], [], term, Status.returned (some "input must be a pointer to struct".toList)⟩
  | Target.ptrStruct fields => promptFields tiUpdate fields term

/-! ## Sample inputs -/

/-- The key message of a named key, as `msg.String()` prints it. -/
def namedKey (t : KeyType) (name : String) : KeyMsg := { Type_ := t, name := name.toList }

/-- The Enter key. -/
def keyEnter : KeyMsg := namedKey KeyType.KeyEnter "enter"

/-- The interrupt key. -/
def keyCtrlC : KeyMsg := namedKey KeyType.KeyCtrlC "ctrl+c"

/-- The arrow-up key. -/
def keyUp : KeyMsg := namedKey KeyType.KeyUp "up"

/-- The arrow-down key. -/
def keyDown : KeyMsg := namedKey KeyType.KeyDown "down"

/-- The key of one typed character. -/
def keyRune (c : Char) : KeyMsg := { Type_ := KeyType.KeyRunes, name := [c] }

/-- The options of the list prompt of `examples/simple/main.go`. -/
def exampleOptions : List Str :=
  ["Option 1".toList, "Option 2".toList, "Option 3".toList, "Option 4".toList,
   "Option 5".toList]

/-- The list prompt of `examples/simple/main.go`. -/
def exampleList : ListPrompt :=
  NewList "Choose an option:".toList exampleOptions

/-- The state reached from `m` after feeding the messages `msgs` to
`confirmModel.Update` one after the other. -/
def confirmModel.feed (m : confirmModel) (msgs : List Msg) : confirmModel :=
  msgs.foldl (fun s e => (confirmModel.Update s e).1) m

/-- Go `len(s)` of a string: the number of bytes of its UTF-8 encoding. -/
def byteLen (s : Str) : Int := (((s.map Char.utf8Size).sum : Nat) : Int)

/-- The validator of `examples/simple/main.go`: at least 8 bytes. -/
def minLengthValidator (input : Str) : Option Str :=
  if byteLen input < 8 then some "password must be at least 8 characters long".toList
  else none

/-- A sample text input for concrete runs: a typed character is appended to the
buffer, every other message leaves the buffer alone. -/
def appendRunes : TextInputUpdate := fun ti msg =>
  match msg with
  | Msg.key k =>
    if k.Type_ = KeyType.KeyRunes then ({ ti with value := ti.value ++ k.name }, Cmd.nil)
    else (ti, Cmd.nil)
  | Msg.other _ => (ti, Cmd.nil)

/-- A text prompt with the validator of `examples/simple/main.go`. -/
def exampleText : TextPrompt :=
  { NewText "Enter a password (min 8 characters):".toList with
    Validator := some minLengthValidator }

/-- The confirmation prompt of `examples/simple/main.go`: the default is yes. -/
def exampleConfirm : ConfirmPrompt :=
  { NewConfirm "Do you want to continue?".toList with DefaultValue := true }

/-- The messages of typing the characters of `s` one by one. -/
def typed (s : String) : List Msg := s.toList.map (fun c => Msg.key (keyRune c))

/-- The model of the example text prompt with the buffer `s`. -/
def exampleTextAfter (s : String) : textModel :=
  { exampleText.initialModel with
    textInput := { exampleText.initialModel.textInput with value := s.toList } }

/-! ## Notions used to state the properties of the orchestrator -/

/-- The grammar of declarations of section 4.6 of the specification, as a
decision procedure: `text`, `password`, `confirm`, or `list[` options `]`, where
the options are separated by commas and hold neither a comma nor a bracket, so
that the text between the two brackets holds no bracket. -/
def matchesGrammar (s : Str) : Bool :=
  s = "text".toList || s = "password".toList || s = "confirm".toList ||
  (HasPrefix s "list[".toList && HasSuffix s "]".toList &&
    (slice s 5 (len s - 1)).all (fun c => c ≠ '[' && c ≠ ']'))

/-- The prompt that the `switch` of `PromptFromStruct` constructs for a parsed
tag and a field name; `none` in the `default` case. -/
def builtFor (tag : PromptTag) (name : Str) : Option Built :=
  if tag.Type_ = "text".toList then some (Built.text name)
  else if tag.Type_ = "password".toList then some (Built.password name)
  else if tag.Type_ = "confirm".toList then some (Built.confirm name)
  else if tag.Type_ = "list".toList then some (Built.list name tag.Options)
  else none

/-- The call of `Run` on a prompt the orchestrator constructed: its result and
the unread input. -/
def Built.Run (tiUpdate : TextInputUpdate) (b : Built) (term : List Input) :
    RunResult × List Input :=
  match b with
  | Built.text q => (((NewText q).Run tiUpdate term).result, ((NewText q).Run tiUpdate term).term)
  | Built.password q =>
    (((NewPassword q).Run tiUpdate term).result, ((NewPassword q).Run tiUpdate term).term)
  | Built.confirm q => (((NewConfirm q).Run term).result, ((NewConfirm q).Run term).term)
  | Built.list q options =>
    (((NewList q options).Run term).result, ((NewList q options).Run term).term)

/-- A field as `reflect` reports it for an exported struct field with a `prompt`
tag and the zero value of its type. -/
def stringField (name tag : String) : Field :=
  { Name := name.toList, Type_ := GoType.string, Tag := tag.toList, Exported := true,
    value := Value.str [] }

/-- An exported boolean field with a `prompt` tag and the value `false`. -/
def boolField (name tag : String) : Field :=
  { Name := name.toList, Type_ := GoType.bool, Tag := tag.toList, Exported := true,
    value := Value.bool false }

/-! ## The methods `Validate` -/

/-- Method `TextPrompt.Validate`. -/
def TextPrompt.Validate (p : TextPrompt) (input : Str) : Option Str :=
  match p.Validator with
  | some validator => validator input
  | none => none

/-- Method `PasswordPrompt.Validate`. -/
def PasswordPrompt.Validate (p : PasswordPrompt) (input : Str) : Option Str :=
  match p.Validator with
  | some validator => validator input
  | none => none

/-- Method `ConfirmPrompt.Validate`: not used for confirmation prompts. -/
def ConfirmPrompt.Validate (_p : ConfirmPrompt) (_input : Str) : Option Str := none

/-- Method `ListPrompt.Validate`: not used for list prompts. -/
def ListPrompt.Validate (_p : ListPrompt) (_input : Str) : Option Str := none

/-! ## `listModel.View` -/

/-- The method `Render` of `lipgloss.Style`: library code, taken as a parameter. -/
abbrev Render := LipglossStyle → Str → Str

/-- Go `fmt.Sprintf("%d", n)`: the decimal digits of an `int`. -/
def fmtInt (n : Int) : Str := (toString n).toList

/-- Go slice expression `xs[lo:hi]` on a slice: `none` stands for the run-time
panic "slice bounds out of range". The upper bound is checked against the
length; the source clamps `hi` to the length before it slices, so the capacity
never decides. -/
def sliceOf {α : Type} (xs : List α) (lo hi : Int) : Option (List α) :=
  if 0 ≤ lo ∧ lo ≤ hi ∧ hi ≤ len xs then some ((xs.drop lo.toNat).take (hi - lo).toNat)
  else none

/-- The end of the visible window computed by `listModel.View` (`endIdx`). -/
def listModel.endIdx (m : listModel) : Int :=
  let endIdx := addInt m.offset m.prompt.PageSize
  if endIdx > len m.prompt.Options then len m.prompt.Options else endIdx

/-- The options `listModel.View` renders (`visibleOptions`). -/
def listModel.visibleOptions (m : listModel) : Option (List Str) :=
  sliceOf m.prompt.Options m.offset m.endIdx

/-- The body of the loop of `listModel.View`: the line written for the `i`-th
visible option. -/
def listModel.optionLine (render : Render) (m : listModel) (i : Int) (option : Str) : Str :=
  let cursor := if addInt m.offset i = m.cursor then ">".toList else " ".toList
  let numberLabel :=
    if m.prompt.ShowNumbers then fmtInt (addInt (addInt m.offset i) 1) ++ ") ".toList else []
  let optionStyle :=
    if addInt m.offset i = m.cursor then m.prompt.Style.FocusedStyle
    else m.prompt.Style.UnfocusedStyle
  cursor ++ " ".toList ++ numberLabel ++ render optionStyle option ++ "\n".toList

/-- The lines `listModel.View` writes for the visible options, in order. -/
def listModel.optionLines (render : Render) (m : listModel) : Option (List Str) :=
  match m.visibleOptions with
  | none => none
  | some visibleOptions =>
    some (visibleOptions.enum.map (fun io => m.optionLine render (io.1 : Int) io.2))

/-- Method `listModel.View`: the question line followed by the option lines. -/
def listModel.View (render : Render) (m : listModel) : Option Str :=
  let question := render m.prompt.Style.QuestionStyle m.prompt.Question
  let b := question ++ "\n".toList
  match m.optionLines render with
  | none => none
  | some lines => some (b ++ lines.flatten)

/-- A sample renderer for concrete runs: the text without colour. -/
def plainRender : Render := fun _ s => s

/-- A password prompt with the validator of `examples/simple/main.go`. -/
def examplePassword : PasswordPrompt :=
  { NewPassword "Enter a password (min 8 characters):".toList with
    Validator := some minLengthValidator }

/-- The model of the example password prompt with the buffer `s`. -/
def examplePasswordAfter (s : String) : passwordModel :=
  { examplePassword.initialModel with
    textInput := { examplePassword.initialModel.textInput with value := s.toList } }

/-! ## The password prompt seen as a text prompt -/

/-- A password prompt as a text prompt: the same configuration and the same text
input, echo settings included. -/
def PasswordPrompt.toText (p : PasswordPrompt) : TextPrompt :=
  { toBasePrompt := p.toBasePrompt, textInput := p.textInput }

/-- A password model as a text model: the same prompt, buffer and recorded error. -/
def passwordModel.toText (m : passwordModel) : textModel :=
  { prompt := m.prompt.toText, textInput := m.textInput, err := m.err }

/-- The example list with three options per page, the cursor on the fourth
option and the window starting at the third. -/
def exampleScrolled : listModel :=
  { prompt := { exampleList with PageSize := 3 }, cursor := 3, offset := 2 }

/-- A list prompt with ten options, built by `NewList`, with the ninth option
pre-selected through the public field `Selected`. -/
def examplePreselected : ListPrompt :=
  { NewList "Choose an option:".toList
      ["Option 1".toList, "Option 2".toList, "Option 3".toList, "Option 4".toList,
       "Option 5".toList, "Option 6".toList, "Option 7".toList, "Option 8".toList,
       "Option 9".toList, "Option 10".toList] with
    Selected := 8 }

/-- A text prompt that ran once with the default "abc" and whose default was
then cleared: `p := NewText("Name"); p.Default = "abc"; p.Run(); p.Default = ""`. -/
def exampleTextRerun : TextPrompt :=
  { (({ NewText "Name".toList with Default := "abc".toList } : TextPrompt).Run appendRunes
      [Input.msg (Msg.key keyEnter)]).prompt with
    Default := [] }

/-- A password prompt that ran once with the default "abc" and whose default was
then cleared. -/
def examplePasswordRerun : PasswordPrompt :=
  { (({ NewPassword "Secret".toList with Default := "abc".toList } : PasswordPrompt).Run
      appendRunes [Input.msg (Msg.key keyEnter)]).prompt with
    Default := [] }

/-- The ListState invariant as the specification states it, on mathematical
integers: `0 ≤ cursor < n`, `0 ≤ offset ≤ cursor`, `cursor < offset + PageSize`. -/
def listModel.SpecInv (m : listModel) : Prop :=
  0 ≤ m.cursor ∧ m.cursor < len m.prompt.Options ∧
  0 ≤ m.offset ∧ m.offset ≤ m.cursor ∧
  m.cursor < m.offset + m.prompt.PageSize

/-- A state of the example list with the largest page size an `int` can hold and
the window starting at the second option: the end of the window,
`offset + PageSize`, is not an `int`. `Run` does not reach such a state: the
offset leaves 0 only when the cursor passes `offset + PageSize`. -/
def overflowState : listModel :=
  { prompt := { exampleList with PageSize := intMax }, cursor := 1, offset := 1 }

/-! ## Theorems -/

/-! ### The list prompt -/

theorem listModel_Update_prompt (m : listModel) (msg : Msg) :
    (listModel.Update m msg).1.prompt = m.prompt := by
  unfold listModel.Update
  cases msg with
  | other t => rfl
  | key k =>
    dsimp only
    split_ifs <;> rfl

theorem listModel_feed_prompt (msgs : List Msg) (m : listModel) :
    (m.feed msgs).prompt = m.prompt := by
  induction msgs generalizing m with
  | nil => rfl
  | cons x xs ih =>
    show ((listModel.Update m x).1.feed xs).prompt = m.prompt
    rw [ih, listModel_Update_prompt]

/-- One step keeps the invariant together with the bound that rules out
overflow: the window end never exceeds the larger of page size and length. -/
theorem listModel_Update_keeps (m : listModel) (msg : Msg)
    (hlen : len m.prompt.Options ≤ intMax)
    (hps : 1 ≤ m.prompt.PageSize) (hps2 : m.prompt.PageSize ≤ intMax)
    (hinv : m.Inv)
    (hend : m.offset + m.prompt.PageSize ≤ max m.prompt.PageSize (len m.prompt.Options)) :
    (listModel.Update m msg).1.Inv ∧
    (listModel.Update m msg).1.offset + m.prompt.PageSize
      ≤ max m.prompt.PageSize (len m.prompt.Options) := by
  obtain ⟨h1, h2, h3, h4, h5⟩ := hinv
  unfold listModel.Update
  cases msg with
  | other t => exact ⟨⟨h1, h2, h3, h4, h5⟩, hend⟩
  | key k =>
    dsimp only
    unfold listModel.Inv
    unfold intMax at hlen hps2
    split_ifs <;> simp only [addInt, subInt, wrapInt] at * <;> omega

theorem listModel_feed_keeps (msgs : List Msg) (m : listModel)
    (hlen : len m.prompt.Options ≤ intMax)
    (hps : 1 ≤ m.prompt.PageSize) (hps2 : m.prompt.PageSize ≤ intMax)
    (hinv : m.Inv)
    (hend : m.offset + m.prompt.PageSize ≤ max m.prompt.PageSize (len m.prompt.Options)) :
    (m.feed msgs).Inv ∧
    (m.feed msgs).offset + m.prompt.PageSize
      ≤ max m.prompt.PageSize (len m.prompt.Options) := by
  induction msgs generalizing m with
  | nil => exact ⟨hinv, hend⟩
  | cons x xs ih =>
    have hp := listModel_Update_prompt m x
    have hk := listModel_Update_keeps m x hlen hps hps2 hinv hend
    have := ih (listModel.Update m x).1 (by rw [hp]; exact hlen) (by rw [hp]; exact hps)
      (by rw [hp]; exact hps2) hk.1 (by rw [hp]; exact hk.2)
    rw [hp] at this
    exact this

/-- The initial model of a prompt with `Selected = 0` satisfies the invariant,
and its window ends within the larger of page size and length. -/
theorem ListPrompt_initialModel_inv (p : ListPrompt)
    (hn : 1 ≤ len p.Options) (hps : 1 ≤ p.PageSize) (hps2 : p.PageSize ≤ intMax)
    (hsel : p.Selected = 0) :
    p.initialModel.Inv ∧
    p.initialModel.offset + p.initialModel.prompt.PageSize
      ≤ max p.initialModel.prompt.PageSize (len p.initialModel.prompt.Options) := by
  constructor
  · unfold listModel.Inv ListPrompt.initialModel
    simp only [hsel, ListPrompt.prepared, addInt, wrapInt]
    unfold intMax at hps2
    refine ⟨le_refl _, ?_, le_refl _, le_refl _, ?_⟩ <;> omega
  · show (0 : Int) + p.PageSize ≤ max p.PageSize (len p.Options)
    omega

/-- C1. Bounds invariant of the list prompt: with at least one option, a page
size of at least one and `Selected = 0`, every state reached from the model
`Run` builds, by any finite sequence of messages fed to `listModel.Update`,
satisfies `0 ≤ cursor < n`, `0 ≤ offset ≤ cursor` and `cursor < offset + PageSize`;
the sum never overflows, and the prompt in the model is the one `Run` stored.
The upper bounds by `intMax` say that length and page size are values of type
`int`. -/
theorem list_cursor_stays_in_window (p : ListPrompt) (msgs : List Msg)
    (hn : 1 ≤ len p.Options) (hlen : len p.Options ≤ intMax)
    (hps : 1 ≤ p.PageSize) (hps2 : p.PageSize ≤ intMax) (hsel : p.Selected = 0) :
    0 ≤ (p.initialModel.feed msgs).cursor ∧
    (p.initialModel.feed msgs).cursor < len p.Options ∧
    0 ≤ (p.initialModel.feed msgs).offset ∧
    (p.initialModel.feed msgs).offset ≤ (p.initialModel.feed msgs).cursor ∧
    (p.initialModel.feed msgs).cursor < (p.initialModel.feed msgs).offset + p.PageSize ∧
    addInt (p.initialModel.feed msgs).offset p.PageSize
      = (p.initialModel.feed msgs).offset + p.PageSize ∧
    (p.initialModel.feed msgs).prompt = p.prepared := by
  obtain ⟨hinit, hend⟩ := ListPrompt_initialModel_inv p hn hps hps2 hsel
  obtain ⟨⟨h1, h2, h3, h4, h5⟩, h6⟩ :=
    listModel_feed_keeps msgs p.initialModel hlen hps hps2 hinit hend
  have hp : (p.initialModel.feed msgs).prompt = p.prepared :=
    listModel_feed_prompt msgs p.initialModel
  rw [hp] at h2 h5
  change (p.initialModel.feed msgs).cursor < len p.Options at h2
  change (p.initialModel.feed msgs).cursor
    < addInt (p.initialModel.feed msgs).offset p.PageSize at h5
  change (p.initialModel.feed msgs).offset + p.PageSize ≤ max p.PageSize (len p.Options) at h6
  have hno : addInt (p.initialModel.feed msgs).offset p.PageSize
      = (p.initialModel.feed msgs).offset + p.PageSize := by
    unfold intMax at hlen hps2
    simp only [addInt, wrapInt]
    omega
  exact ⟨h1, h2, h3, h4, by rw [← hno]; exact h5, hno, hp⟩

/-- Witness of C1: the example list, after down, down, up. -/
theorem list_cursor_stays_in_window_witness :
    (1 ≤ len exampleList.Options ∧ len exampleList.Options ≤ intMax ∧
      1 ≤ exampleList.PageSize ∧ exampleList.PageSize ≤ intMax ∧ exampleList.Selected = 0) ∧
    (0 ≤ (exampleList.initialModel.feed
        [Msg.key keyDown, Msg.key keyDown, Msg.key keyUp]).cursor ∧
      (exampleList.initialModel.feed
        [Msg.key keyDown, Msg.key keyDown, Msg.key keyUp]).cursor < len exampleList.Options) :=
  ⟨by decide,
   let h := list_cursor_stays_in_window exampleList
     [Msg.key keyDown, Msg.key keyDown, Msg.key keyUp]
     (by decide) (by decide) (by decide) (by decide) (by decide)
   ⟨h.1, h.2.1⟩⟩

/-- The invariant read on `int` is the invariant on mathematical integers
together with the fact that the end of the window is an `int`. -/
theorem listModel_Inv_iff (m : listModel) (hlen : len m.prompt.Options ≤ intMax)
    (hps0 : intMin ≤ m.prompt.PageSize) (hps : m.prompt.PageSize ≤ intMax) :
    m.Inv ↔
      (0 ≤ m.cursor ∧ m.cursor < len m.prompt.Options ∧ 0 ≤ m.offset ∧
        m.offset ≤ m.cursor ∧ m.cursor < m.offset + m.prompt.PageSize ∧
        m.offset + m.prompt.PageSize ≤ intMax) := by
  unfold listModel.Inv
  unfold intMax at *
  unfold intMin at hps0
  simp only [addInt, wrapInt]
  constructor
  · rintro ⟨h1, h2, h3, h4, h5⟩
    refine ⟨h1, h2, h3, h4, ?_, ?_⟩ <;> omega
  · rintro ⟨h1, h2, h3, h4, h5, h6⟩
    refine ⟨h1, h2, h3, h4, ?_⟩
    omega

/-- Counterexample to C9 as stated. The state `overflowState` (five options,
`PageSize` the largest `int`, cursor 1, offset 1) satisfies the ListState
invariant on mathematical integers, and its length and page size are values of
type `int`. On "down" the specified transition keeps the offset 1, while
`listModel.Update` computes `offset + PageSize` on `int`, where it wraps to a
negative number, and sets the offset to `-9223372036854775804`. -/
theorem update_differs_from_spec_on_overflow :
    overflowState.SpecInv ∧ len overflowState.prompt.Options ≤ intMax ∧
    intMin ≤ overflowState.prompt.PageSize ∧ overflowState.prompt.PageSize ≤ intMax ∧
    specMove (len overflowState.prompt.Options) overflowState.prompt.PageSize
      overflowState.cursor overflowState.offset Move.down = (2, 1) ∧
    (listModel.Update overflowState (Msg.key keyDown)).1.cursor = 2 ∧
    (listModel.Update overflowState (Msg.key keyDown)).1.offset = -9223372036854775804 ∧
    (listModel.Update overflowState (Msg.key keyDown)).1.offset
      ≠ (specMove (len overflowState.prompt.Options) overflowState.prompt.PageSize
          overflowState.cursor overflowState.offset Move.down).2 := by
  refine ⟨?_, by decide, by decide, by decide, by decide, by decide, by decide, by decide⟩
  unfold listModel.SpecInv
  decide

/-- C9, amended. On every state that satisfies the ListState invariant and whose
window end `offset + PageSize` is a value of type `int`, `listModel.Update` is
the transition function of the specification: "up"/"k" and "down"/"j" move
cursor and window as `specMove` says, issue no quit command and keep the prompt
(hence the options). The hypothesis on `len` says that it is a value of type
`int`. -/
theorem listModel_Update_refines_specMove (m : listModel) (k : KeyMsg)
    (hlen : len m.prompt.Options ≤ intMax)
    (hinv : m.SpecInv) (hfit : m.offset + m.prompt.PageSize ≤ intMax) :
    ((k.name = "up".toList ∨ k.name = "k".toList) →
      listModel.Update m (Msg.key k) =
        ({ prompt := m.prompt
           cursor := (specMove (len m.prompt.Options) m.prompt.PageSize
             m.cursor m.offset Move.up).1
           offset := (specMove (len m.prompt.Options) m.prompt.PageSize
             m.cursor m.offset Move.up).2 }, Cmd.nil)) ∧
    ((k.name = "down".toList ∨ k.name = "j".toList) →
      listModel.Update m (Msg.key k) =
        ({ prompt := m.prompt
           cursor := (specMove (len m.prompt.Options) m.prompt.PageSize
             m.cursor m.offset Move.down).1
           offset := (specMove (len m.prompt.Options) m.prompt.PageSize
             m.cursor m.offset Move.down).2 }, Cmd.nil)) := by
  obtain ⟨p, c, o⟩ := m
  obtain ⟨h1, h2, h3, h4, h5⟩ := hinv
  simp only at hlen hfit h1 h2 h3 h4 h5
  have hps : p.PageSize ≤ intMax := by omega
  have hc1 : subInt c 1 = c - 1 := by
    unfold intMax at hlen; simp only [subInt, wrapInt]; omega
  have hc2 : addInt c 1 = c + 1 := by
    unfold intMax at hlen; simp only [addInt, wrapInt]; omega
  have hl : subInt (len p.Options) 1 = len p.Options - 1 := by
    unfold intMax at hlen; simp only [subInt, wrapInt]; omega
  have hop : addInt o p.PageSize = o + p.PageSize := by
    unfold intMax at hlen hfit; simp only [addInt, wrapInt]; omega
  constructor
  · intro hk
    unfold listModel.Update
    simp only [hk, if_true, specMove, hc1]
    split_ifs with ha hb
    · refine Prod.ext ?_ rfl
      show listModel.mk p (c - 1) (c - 1) = listModel.mk p _ _
      congr 1 <;> omega
    · refine Prod.ext ?_ rfl
      show listModel.mk p (c - 1) o = listModel.mk p _ _
      congr 1 <;> omega
    · refine Prod.ext ?_ rfl
      show listModel.mk p c o = listModel.mk p _ _
      congr 1 <;> omega
  · intro hk
    have hnup : ¬ (k.name = "up".toList ∨ k.name = "k".toList) := by
      rcases hk with hk | hk <;> rw [hk] <;> decide
    unfold listModel.Update
    simp only [hnup, hk, if_true, if_false, specMove, hc2, hl, hop]
    split_ifs with ha hb
    · simp only [hc2, hl, hop] at ha hb
      have hw : addInt (subInt (c + 1) p.PageSize) 1 = c + 1 - p.PageSize + 1 := by
        unfold intMax at hlen hps; simp only [subInt, addInt, wrapInt]; omega
      refine Prod.ext ?_ rfl
      show listModel.mk p (c + 1) (addInt (subInt (c + 1) p.PageSize) 1) = listModel.mk p _ _
      rw [hw]
      congr 1 <;> omega
    · simp only [hc2, hl, hop] at ha hb
      refine Prod.ext ?_ rfl
      show listModel.mk p (c + 1) o = listModel.mk p _ _
      congr 1 <;> omega
    · simp only [hc2, hl, hop] at ha
      refine Prod.ext ?_ rfl
      show listModel.mk p c o = listModel.mk p _ _
      congr 1 <;> omega

/-- Witness of C9, amended: "down" on the initial state of the example list. -/
theorem listModel_Update_refines_specMove_witness :
    (len exampleList.initialModel.prompt.Options ≤ intMax ∧
      exampleList.initialModel.SpecInv ∧
      exampleList.initialModel.offset + exampleList.initialModel.prompt.PageSize
        ≤ intMax) ∧
    listModel.Update exampleList.initialModel (Msg.key keyDown)
      = ({ prompt := exampleList.prepared, cursor := 1, offset := 0 }, Cmd.nil) :=
  ⟨⟨by decide, by unfold listModel.SpecInv; decide, by decide⟩,
   (listModel_Update_refines_specMove exampleList.initialModel keyDown
     (by decide) (by unfold listModel.SpecInv; decide) (by decide)).2
     (Or.inl rfl)⟩

/-! ### The event loop -/

theorem programRun_of_feedNoQuit {M : Type} (update : M → Msg → M × Cmd)
    (xs : List Msg) (m m1 m2 : M) (x : Msg) (rest : List Input)
    (hfeed : feedNoQuit update m xs = some m1) (hq : update m1 x = (m2, Cmd.Quit)) :
    programRun update m (xs.map Input.msg ++ Input.msg x :: rest)
      = some ((m2, none), rest) := by
  induction xs generalizing m with
  | nil =>
    simp only [feedNoQuit, Option.some.injEq] at hfeed
    subst hfeed
    simp only [List.map_nil, List.nil_append, programRun, hq]
  | cons y ys ih =>
    simp only [feedNoQuit] at hfeed
    simp only [List.map_cons, List.cons_append, programRun]
    rcases hu : update m y with ⟨m', c⟩
    rw [hu] at hfeed
    cases c with
    | Quit => simp at hfeed
    | nil => exact ih m' hfeed
    | other t => exact ih m' hfeed

theorem listModel_Update_move_cmd (m : listModel) (k : KeyMsg)
    (hk : k.name = "up".toList ∨ k.name = "k".toList ∨
      k.name = "down".toList ∨ k.name = "j".toList) :
    (listModel.Update m (Msg.key k)).2 = Cmd.nil := by
  unfold listModel.Update
  rcases hk with hk | hk | hk | hk <;> simp only [hk] <;> split_ifs <;> first | rfl | (exfalso; revert ‹_›; decide)

theorem listModel_feedNoQuit_moves (keys : List KeyMsg) (m : listModel)
    (hkeys : ∀ k ∈ keys, k.name = "up".toList ∨ k.name = "k".toList ∨
      k.name = "down".toList ∨ k.name = "j".toList) :
    feedNoQuit listModel.Update m (keys.map Msg.key) = some (m.feed (keys.map Msg.key)) := by
  induction keys generalizing m with
  | nil => rfl
  | cons k ks ih =>
    have hc := listModel_Update_move_cmd m k (hkeys k (List.mem_cons_self _ _))
    have := ih (listModel.Update m (Msg.key k)).1 (fun k' hk' => hkeys k' (List.mem_cons_of_mem _ hk'))
    simp only [List.map_cons, feedNoQuit]
    rcases hu : listModel.Update m (Msg.key k) with ⟨m', c⟩
    rw [hu] at hc this
    simp only at hc this
    subst hc
    simp only [listModel.feed, List.foldl_cons, hu]
    exact this

theorem index_of_bounds {α : Type} (xs : List α) (i : Int) (h0 : 0 ≤ i) (h1 : i < len xs) :
    ∃ x, index xs i = some x ∧ xs.get? i.toNat = some x := by
  have hlt : i.toNat < xs.length := by
    unfold len at h1
    omega
  refine ⟨xs.get ⟨i.toNat, hlt⟩, ?_, List.get?_eq_get hlt⟩
  unfold index
  rw [if_neg (by omega)]
  exact List.get?_eq_get hlt

/-- C10. For a list prompt built by `NewList` with at least one option, after any
sequence of up/down/k/j keys the Enter key leaves the model unchanged and quits,
the cursor is a valid index into the options, and `Run` returns the option at
the cursor with a nil error, leaving the input behind Enter unread. -/
theorem list_run_returns_option_at_cursor (question : Str) (options : List Str)
    (keys : List KeyMsg) (e : KeyMsg) (rest : List Input)
    (hn : 1 ≤ len options) (hlen : len options ≤ intMax)
    (hkeys : ∀ k ∈ keys, k.name = "up".toList ∨ k.name = "k".toList ∨
      k.name = "down".toList ∨ k.name = "j".toList)
    (he : e.name = "enter".toList) :
    listModel.Update ((NewList question options).initialModel.feed (keys.map Msg.key))
        (Msg.key e)
      = ((NewList question options).initialModel.feed (keys.map Msg.key), Cmd.Quit) ∧
    0 ≤ ((NewList question options).initialModel.feed (keys.map Msg.key)).cursor ∧
    ((NewList question options).initialModel.feed (keys.map Msg.key)).cursor < len options ∧
    ∃ s, index options ((NewList question options).initialModel.feed
          (keys.map Msg.key)).cursor = some s ∧
      ((NewList question options).Run
          (keys.map (fun k => Input.msg (Msg.key k)) ++ Input.msg (Msg.key e) :: rest)).result
        = RunResult.returned (Value.str s) none ∧
      ((NewList question options).Run
          (keys.map (fun k => Input.msg (Msg.key k)) ++ Input.msg (Msg.key e) :: rest)).term
        = rest := by
  have h7 : (1 : Int) ≤ 7 := by decide
  have h7' : (7 : Int) ≤ intMax := by decide
  obtain ⟨hinit, hend⟩ :=
    ListPrompt_initialModel_inv (NewList question options) hn h7 h7' rfl
  obtain ⟨⟨h1, h2, -, -, -⟩, -⟩ :=
    listModel_feed_keeps (keys.map Msg.key) (NewList question options).initialModel
      hlen h7 h7' hinit hend
  rw [listModel_feed_prompt] at h2
  change _ < len options at h2
  have hq : listModel.Update ((NewList question options).initialModel.feed (keys.map Msg.key))
      (Msg.key e)
      = ((NewList question options).initialModel.feed (keys.map Msg.key), Cmd.Quit) := by
    unfold listModel.Update
    simp only [he]
    rfl
  obtain ⟨s, hs, -⟩ := index_of_bounds options _ h1 h2
  refine ⟨hq, h1, h2, s, hs, ?_⟩
  have hrun := programRun_of_feedNoQuit listModel.Update (keys.map Msg.key)
    (NewList question options).initialModel _ _ (Msg.key e) rest
    (listModel_feedNoQuit_moves keys _ hkeys) hq
  have hmap : keys.map (fun k => Input.msg (Msg.key k)) = (keys.map Msg.key).map Input.msg := by
    rw [List.map_map]; rfl
  have hne : ¬ len (NewList question options).Options = 0 := by
    show ¬ len options = 0
    omega
  have hs' : index (NewList question options).prepared.Options
      ((NewList question options).initialModel.feed (keys.map Msg.key)).cursor = some s := hs
  unfold ListPrompt.Run
  rw [if_neg hne, hmap]
  simp only [hrun, hs']
  exact ⟨trivial, trivial⟩

/-- Witness of C10: down, down, up, Enter on the example list. -/
theorem list_run_returns_option_at_cursor_witness :
    (1 ≤ len exampleOptions ∧ len exampleOptions ≤ intMax ∧
      (∀ k ∈ [keyDown, keyDown, keyUp], k.name = "up".toList ∨ k.name = "k".toList ∨
        k.name = "down".toList ∨ k.name = "j".toList) ∧
      keyEnter.name = "enter".toList) ∧
    ∃ s, index exampleOptions ((NewList "Choose an option:".toList
          exampleOptions).initialModel.feed
          ([keyDown, keyDown, keyUp].map Msg.key)).cursor = some s ∧
      ((NewList "Choose an option:".toList exampleOptions).Run
          ([keyDown, keyDown, keyUp].map (fun k => Input.msg (Msg.key k))
            ++ Input.msg (Msg.key keyEnter) :: [])).result
        = RunResult.returned (Value.str s) none ∧
      ((NewList "Choose an option:".toList exampleOptions).Run
          ([keyDown, keyDown, keyUp].map (fun k => Input.msg (Msg.key k))
            ++ Input.msg (Msg.key keyEnter) :: [])).term
        = [] :=
  ⟨by decide,
   (list_run_returns_option_at_cursor "Choose an option:".toList exampleOptions
     [keyDown, keyDown, keyUp] keyEnter [] (by decide) (by decide) (by decide)
     (by decide)).2.2.2⟩

/-- C8. The empty-options guard of `ListPrompt.Run`: with no options `Run`
returns `("", "no options provided")` whatever the terminal holds, leaving the
prompt (no program stored) and the input untouched; with at least one option
the guard does not fire: the program is created and `Run` waits for input. -/
theorem list_run_empty_options_guard (p : ListPrompt) (term : List Input) :
    (p.Options = [] →
      p.Run term = ⟨p, RunResult.returned (Value.str [])
        (some "no options provided".toList), term⟩) ∧
    (p.Options ≠ [] →
      (p.Run term).prompt = p.prepared ∧
      (p.Run term).prompt.Program = some Program.handle ∧
      (p.Run []).result = RunResult.blocked ∧
      (∀ e rest, (p.Run (Input.fail e :: rest)).result
        = RunResult.returned (Value.str []) (some e))) := by
  constructor
  · intro h
    unfold ListPrompt.Run
    rw [if_pos (by rw [h]; rfl)]
  · intro h
    have hne : ¬ len p.Options = 0 := by
      unfold len
      cases hp : p.Options with
      | nil => exact absurd hp h
      | cons a as =>
        simp only [List.length_cons]
        omega
    refine ⟨?_, ?_, ?_, ?_⟩
    · unfold ListPrompt.Run
      rw [if_neg hne]
      dsimp only
      split
      · rfl
      · rfl
      · split <;> rfl
    · unfold ListPrompt.Run
      rw [if_neg hne]
      dsimp only
      split
      · rfl
      · rfl
      · split <;> rfl
    · unfold ListPrompt.Run
      rw [if_neg hne]
      rfl
    · intro e rest
      unfold ListPrompt.Run
      rw [if_neg hne]
      rfl

/-- Witness of C8: a list prompt without options, and the example list. -/
theorem list_run_empty_options_guard_witness :
    ((NewList "Pick".toList []).Run [Input.msg (Msg.key keyEnter)]
      = ⟨NewList "Pick".toList [], RunResult.returned (Value.str [])
          (some "no options provided".toList), [Input.msg (Msg.key keyEnter)]⟩) ∧
    (exampleList.Run []).result = RunResult.blocked :=
  ⟨(list_run_empty_options_guard (NewList "Pick".toList [])
      [Input.msg (Msg.key keyEnter)]).1 rfl,
   ((list_run_empty_options_guard exampleList []).2 (by decide)).2.2.1⟩

/-! ### The confirmation prompt -/

theorem confirmModel_Update_prompt (m : confirmModel) (msg : Msg) :
    (confirmModel.Update m msg).1.prompt = m.prompt := by
  unfold confirmModel.Update
  cases msg with
  | other t => rfl
  | key k =>
    dsimp only
    split_ifs <;> rfl

/-- A key that the confirmation prompt ignores: none of y, Y, n, N, enter and
ctrl+c. -/
theorem confirmModel_Update_ignored (m : confirmModel) (k : KeyMsg)
    (hk : ¬ (k.name = "y".toList ∨ k.name = "Y".toList ∨ k.name = "n".toList ∨
      k.name = "N".toList ∨ k.name = "enter".toList ∨ k.name = "ctrl+c".toList)) :
    confirmModel.Update m (Msg.key k) = (m, Cmd.nil) := by
  unfold confirmModel.Update
  simp only [not_or] at hk
  obtain ⟨h1, h2, h3, h4, h5, h6⟩ := hk
  simp only [h1, h2, h3, h4, h5, h6, or_self, if_false]

theorem confirmModel_feedNoQuit_ignored (pre : List KeyMsg) (m : confirmModel)
    (hpre : ∀ k ∈ pre, ¬ (k.name = "y".toList ∨ k.name = "Y".toList ∨ k.name = "n".toList ∨
      k.name = "N".toList ∨ k.name = "enter".toList ∨ k.name = "ctrl+c".toList)) :
    feedNoQuit confirmModel.Update m (pre.map Msg.key) = some m := by
  induction pre with
  | nil => rfl
  | cons k ks ih =>
    simp only [List.map_cons, feedNoQuit,
      confirmModel_Update_ignored m k (hpre k (List.mem_cons_self _ _))]
    exact ih (fun k' hk' => hpre k' (List.mem_cons_of_mem _ hk'))

theorem confirmModel_feed_value (msgs : List Msg) (m : confirmModel)
    (hm : m.value = m.prompt.DefaultValue)
    (hmsgs : ∀ k, Msg.key k ∈ msgs → ¬ (k.name = "y".toList ∨ k.name = "Y".toList ∨
      k.name = "n".toList ∨ k.name = "N".toList)) :
    (m.feed msgs).value = m.prompt.DefaultValue := by
  induction msgs generalizing m with
  | nil => exact hm
  | cons x xs ih =>
    have hp := confirmModel_Update_prompt m x
    have hv : (confirmModel.Update m x).1.value = (confirmModel.Update m x).1.prompt.DefaultValue := by
      rw [hp]
      cases x with
      | other t => exact hm
      | key k =>
        have hk := hmsgs k (List.mem_cons_self _ _)
        simp only [not_or] at hk
        obtain ⟨h1, h2, h3, h4⟩ := hk
        unfold confirmModel.Update
        simp only [h1, h2, h3, h4, or_self, if_false]
        split_ifs
        · rfl
        · exact hm
        · exact hm
    have := ih (confirmModel.Update m x).1 hv
      (fun k hk => hmsgs k (List.mem_cons_of_mem _ hk))
    rw [hp] at this
    exact this

/-- C3. The confirmation prompt with default value `d = p.DefaultValue`, started
from the model `Run` builds and after any keys the prompt ignores: Enter quits
with result `d`; y/Y quits with result `true` and n/N with result `false`,
whatever `d`; every other key except the interrupt leaves the model unchanged
and does not quit; and as long as no y/Y/n/N key arrives the held value is `d`. -/
theorem confirm_keys_decide_result (p : ConfirmPrompt) (pre : List KeyMsg) (k : KeyMsg)
    (rest : List Input)
    (hpre : ∀ k' ∈ pre, ¬ (k'.name = "y".toList ∨ k'.name = "Y".toList ∨
      k'.name = "n".toList ∨ k'.name = "N".toList ∨ k'.name = "enter".toList ∨
      k'.name = "ctrl+c".toList)) :
    (k.name = "enter".toList →
      (p.Run (pre.map (fun x => Input.msg (Msg.key x)) ++ Input.msg (Msg.key k) :: rest)).result
        = RunResult.returned (Value.bool p.DefaultValue) none) ∧
    ((k.name = "y".toList ∨ k.name = "Y".toList) →
      (p.Run (pre.map (fun x => Input.msg (Msg.key x)) ++ Input.msg (Msg.key k) :: rest)).result
        = RunResult.returned (Value.bool true) none) ∧
    ((k.name = "n".toList ∨ k.name = "N".toList) →
      (p.Run (pre.map (fun x => Input.msg (Msg.key x)) ++ Input.msg (Msg.key k) :: rest)).result
        = RunResult.returned (Value.bool false) none) ∧
    (¬ (k.name = "y".toList ∨ k.name = "Y".toList ∨ k.name = "n".toList ∨
        k.name = "N".toList ∨ k.name = "enter".toList ∨ k.name = "ctrl+c".toList) →
      ∀ m : confirmModel, confirmModel.Update m (Msg.key k) = (m, Cmd.nil)) ∧
    (∀ msgs : List Msg,
      (∀ k', Msg.key k' ∈ msgs → ¬ (k'.name = "y".toList ∨ k'.name = "Y".toList ∨
        k'.name = "n".toList ∨ k'.name = "N".toList)) →
      (p.initialModel.feed msgs).value = p.DefaultValue) := by
  have hmap : pre.map (fun x => Input.msg (Msg.key x)) = (pre.map Msg.key).map Input.msg := by
    rw [List.map_map]; rfl
  have hfeed := confirmModel_feedNoQuit_ignored pre p.initialModel hpre
  have hrun : ∀ m2, confirmModel.Update p.initialModel (Msg.key k) = (m2, Cmd.Quit) →
      (p.Run (pre.map (fun x => Input.msg (Msg.key x)) ++ Input.msg (Msg.key k) :: rest)).result
        = RunResult.returned (Value.bool m2.value) none := by
    intro m2 hq
    have := programRun_of_feedNoQuit confirmModel.Update (pre.map Msg.key)
      p.initialModel _ m2 (Msg.key k) rest hfeed hq
    unfold ConfirmPrompt.Run
    rw [hmap]
    simp only [this]
  refine ⟨?_, ?_, ?_, ?_, ?_⟩
  · intro hk
    refine hrun { p.initialModel with value := p.initialModel.prompt.DefaultValue } ?_
    unfold confirmModel.Update
    simp only [hk]
    rfl
  · intro hk
    refine hrun { p.initialModel with value := true } ?_
    unfold confirmModel.Update
    simp only [hk, if_true]
  · intro hk
    have hny : ¬ (k.name = "y".toList ∨ k.name = "Y".toList) := by
      rcases hk with hk | hk <;> rw [hk] <;> decide
    refine hrun { p.initialModel with value := false } ?_
    unfold confirmModel.Update
    simp only [hny, hk, if_true, if_false]
  · intro hk m
    exact confirmModel_Update_ignored m k hk
  · intro msgs hmsgs
    exact confirmModel_feed_value msgs p.initialModel rfl hmsgs

/-- Witness of C3: with default yes, an ignored key and then Enter give `true`,
an ignored key and then "n" give `false`. -/
theorem confirm_keys_decide_result_witness :
    (∀ k' ∈ [keyRune 'x'], ¬ (k'.name = "y".toList ∨ k'.name = "Y".toList ∨
      k'.name = "n".toList ∨ k'.name = "N".toList ∨ k'.name = "enter".toList ∨
      k'.name = "ctrl+c".toList)) ∧
    (exampleConfirm.Run ([keyRune 'x'].map (fun x => Input.msg (Msg.key x))
        ++ Input.msg (Msg.key keyEnter) :: [])).result
      = RunResult.returned (Value.bool true) none ∧
    (exampleConfirm.Run ([keyRune 'x'].map (fun x => Input.msg (Msg.key x))
        ++ Input.msg (Msg.key (keyRune 'n')) :: [])).result
      = RunResult.returned (Value.bool false) none :=
  ⟨by decide,
   (confirm_keys_decide_result exampleConfirm [keyRune 'x'] keyEnter [] (by decide)).1 rfl,
   (confirm_keys_decide_result exampleConfirm [keyRune 'x'] (keyRune 'n') []
     (by decide)).2.2.1 (Or.inl rfl)⟩

/-! ### The text prompt -/

theorem textModel_Update_prompt (tiUpdate : TextInputUpdate) (m : textModel) (msg : Msg) :
    (textModel.Update tiUpdate m msg).1.prompt = m.prompt := by
  unfold textModel.Update
  cases msg with
  | other t => rfl
  | key k =>
    dsimp only
    split
    · split
      · split <;> rfl
      · rfl
    · rfl
    · rfl

theorem textModel_feedNoQuit_prompt (tiUpdate : TextInputUpdate) (msgs : List Msg)
    (m m1 : textModel) (h : feedNoQuit (textModel.Update tiUpdate) m msgs = some m1) :
    m1.prompt = m.prompt := by
  induction msgs generalizing m with
  | nil =>
    simp only [feedNoQuit, Option.some.injEq] at h
    rw [← h]
  | cons x xs ih =>
    simp only [feedNoQuit] at h
    have hp := textModel_Update_prompt tiUpdate m x
    rcases hu : textModel.Update tiUpdate m x with ⟨m', c⟩
    rw [hu] at h hp
    cases c with
    | Quit => simp at h
    | nil => rw [ih m' h]; exact hp
    | other t => rw [ih m' h]; exact hp

theorem TextPrompt_prepared_Validator (p : TextPrompt) :
    p.prepared.Validator = p.Validator := by
  unfold TextPrompt.prepared
  dsimp only
  split_ifs <;> rfl

theorem byteLen_ge_length (s : Str) : (s.length : Int) ≤ byteLen s := by
  unfold byteLen
  induction s with
  | nil => simp
  | cons c cs ih =>
    have hc : 1 ≤ c.utf8Size := by
      unfold Char.utf8Size
      dsimp only
      split_ifs <;> decide
    simp only [List.map_cons, List.sum_cons, List.length_cons]
    push_cast at ih ⊢
    omega

/-- C2. Enter on a text prompt is a validation gate. With a validator that
rejects the buffer with error `e`, `textModel.Update` records `e`, keeps the
buffer and issues no command; with no validator, or one that accepts the buffer,
it quits with the model unchanged, and `Run` returns exactly the buffer reached
before Enter. With the validator "at least 8 bytes" of the example, the buffer
"abc" is kept with the error recorded and every buffer of 8 characters is
accepted. -/
theorem text_enter_is_validation_gate (tiUpdate : TextInputUpdate) (p : TextPrompt)
    (m : textModel) (k : KeyMsg) (hk : k.Type_ = KeyType.KeyEnter) :
    (∀ v e, m.prompt.Validator = some v → v m.textInput.Value = some e →
      textModel.Update tiUpdate m (Msg.key k) = ({ m with err := some e }, Cmd.nil)) ∧
    ((m.prompt.Validator = none ∨
        ∃ v, m.prompt.Validator = some v ∧ v m.textInput.Value = none) →
      textModel.Update tiUpdate m (Msg.key k) = (m, Cmd.Quit)) ∧
    (∀ (msgs : List Msg) (m1 : textModel) (rest : List Input),
      feedNoQuit (textModel.Update tiUpdate) p.initialModel msgs = some m1 →
      (p.Validator = none ∨ ∃ v, p.Validator = some v ∧ v m1.textInput.Value = none) →
      (p.Run tiUpdate (msgs.map Input.msg ++ Input.msg (Msg.key k) :: rest)).result
        = RunResult.returned (Value.str m1.textInput.Value) none) ∧
    (m.prompt.Validator = some minLengthValidator → m.textInput.Value = "abc".toList →
      textModel.Update tiUpdate m (Msg.key k)
        = ({ m with err := some "password must be at least 8 characters long".toList },
            Cmd.nil)) ∧
    (m.prompt.Validator = some minLengthValidator → m.textInput.Value.length = 8 →
      textModel.Update tiUpdate m (Msg.key k) = (m, Cmd.Quit)) := by
  have hrej : ∀ v e, m.prompt.Validator = some v → v m.textInput.Value = some e →
      textModel.Update tiUpdate m (Msg.key k) = ({ m with err := some e }, Cmd.nil) := by
    intro v e hv he
    unfold textModel.Update
    simp only [hk, hv, he]
  have hacc : ∀ m' : textModel, (m'.prompt.Validator = none ∨
        ∃ v, m'.prompt.Validator = some v ∧ v m'.textInput.Value = none) →
      textModel.Update tiUpdate m' (Msg.key k) = (m', Cmd.Quit) := by
    intro m' h
    unfold textModel.Update
    rcases h with h | ⟨v, hv, hn⟩
    · simp only [hk, h]
    · simp only [hk, hv, hn]
  refine ⟨hrej, hacc m, ?_, ?_, ?_⟩
  · intro msgs m1 rest hfeed hval
    have hp : m1.prompt = p.prepared := textModel_feedNoQuit_prompt tiUpdate msgs _ _ hfeed
    have hq := hacc m1 (by rw [hp, TextPrompt_prepared_Validator]; exact hval)
    have := programRun_of_feedNoQuit (textModel.Update tiUpdate) msgs
      p.initialModel m1 m1 (Msg.key k) rest hfeed hq
    unfold TextPrompt.Run
    simp only [this]
  · intro hv hb
    refine hrej minLengthValidator _ hv ?_
    rw [hb]
    decide
  · intro hv hb
    refine hacc m (Or.inr ⟨minLengthValidator, hv, ?_⟩)
    unfold minLengthValidator
    have := byteLen_ge_length m.textInput.Value
    rw [hb] at this
    rw [if_neg (by push_cast at this; omega)]

/-- Witness of C2: on the example text prompt, typing "abc" and Enter keeps the
buffer and records the error; typing "abcdefgh" and Enter returns "abcdefgh". -/
theorem text_enter_is_validation_gate_witness :
    keyEnter.Type_ = KeyType.KeyEnter ∧
    feedNoQuit (textModel.Update appendRunes) exampleText.initialModel (typed "abc")
      = some (exampleTextAfter "abc") ∧
    textModel.Update appendRunes (exampleTextAfter "abc") (Msg.key keyEnter)
      = ({ exampleTextAfter "abc" with
            err := some "password must be at least 8 characters long".toList }, Cmd.nil) ∧
    (exampleText.Run appendRunes
        ((typed "abcdefgh").map Input.msg ++ Input.msg (Msg.key keyEnter) :: [])).result
      = RunResult.returned (Value.str "abcdefgh".toList) none :=
  ⟨rfl, rfl,
   (text_enter_is_validation_gate appendRunes exampleText (exampleTextAfter "abc") keyEnter
     rfl).2.2.2.1 rfl rfl,
   (text_enter_is_validation_gate appendRunes exampleText (exampleTextAfter "abc") keyEnter
     rfl).2.2.1 (typed "abcdefgh") (exampleTextAfter "abcdefgh") [] rfl
     (Or.inr ⟨minLengthValidator, rfl, by decide⟩)⟩

/-! ### The tag grammar -/

theorem TrimSpace_length_le (s : Str) : (TrimSpace s).length ≤ s.length := by
  unfold TrimSpace
  rw [List.length_reverse]
  calc ((s.dropWhile isSpace).reverse.dropWhile isSpace).length
      ≤ (s.dropWhile isSpace).reverse.length := (List.dropWhile_suffix _).length_le
    _ = (s.dropWhile isSpace).length := List.length_reverse _
    _ ≤ s.length := (List.dropWhile_suffix _).length_le

theorem HasPrefix_append (pre s : Str) : HasPrefix (pre ++ s) pre = true := by
  unfold HasPrefix
  induction pre with
  | nil => simp [List.isPrefixOf]
  | cons c cs ih => simp [List.isPrefixOf]

theorem HasSuffix_append (s suf : Str) : HasSuffix (s ++ suf) suf = true := by
  unfold HasSuffix List.isSuffixOf
  rw [List.reverse_append]
  exact HasPrefix_append suf.reverse s.reverse

theorem slice_list_body (body : Str)
    (hlen : len ("list[".toList ++ body ++ "]".toList) ≤ intMax) :
    slice ("list[".toList ++ body ++ "]".toList) 5
      (subInt (len ("list[".toList ++ body ++ "]".toList)) 1) = body := by
  have hl : len ("list[".toList ++ body ++ "]".toList) = (body.length : Int) + 6 := by
    unfold len
    simp only [List.length_append, String.toList, List.length_cons, List.length_nil]
    push_cast
    ring
  rw [hl] at hlen ⊢
  have hs : subInt ((body.length : Int) + 6) 1 = (body.length : Int) + 5 := by
    unfold intMax at hlen
    simp only [subInt, wrapInt]
    omega
  rw [hs]
  unfold slice
  have h5 : ((5 : Int)).toNat = 5 := rfl
  have hb : ((body.length : Int) + 5 - 5).toNat = body.length := by omega
  rw [h5, hb]
  show (List.drop 5 ('l' :: 'i' :: 's' :: 't' :: '[' :: (body ++ "]".toList))).take body.length
    = body
  simp

theorem Split_ne_nil (s : Str) (sep : Char) : Split s sep ≠ [] := by
  cases s with
  | nil => simp [Split]
  | cons c cs =>
    unfold Split
    split_ifs
    · simp
    · split <;> simp

theorem Split_intercalate (s : Str) (sep : Char) : [sep].intercalate (Split s sep) = s := by
  induction s with
  | nil => simp [Split, List.intercalate]
  | cons c cs ih =>
    unfold Split
    split_ifs with h
    · have hne := Split_ne_nil cs sep
      cases hsp : Split cs sep with
      | nil => exact absurd hsp hne
      | cons p ps =>
        rw [hsp] at ih
        simp only [List.intercalate, List.intersperse, List.flatten_cons, List.nil_append,
          List.singleton_append] at ih ⊢
        rw [h, ih]
    · cases hsp : Split cs sep with
      | nil => exact absurd hsp (Split_ne_nil cs sep)
      | cons p ps =>
        rw [hsp] at ih
        simp only
        cases ps with
        | nil =>
          simp only [List.intercalate, List.intersperse, List.flatten_cons, List.flatten_nil,
            List.append_nil] at ih ⊢
          rw [ih]
        | cons q qs =>
          simp only [List.intercalate, List.intersperse, List.flatten_cons,
            List.cons_append] at ih ⊢
          rw [ih]

theorem Split_no_sep (s : Str) (sep : Char) : ∀ piece ∈ Split s sep, sep ∉ piece := by
  induction s with
  | nil => simp [Split]
  | cons c cs ih =>
    unfold Split
    split_ifs with h
    · intro piece hp
      rcases List.mem_cons.1 hp with hp | hp
      · rw [hp]; simp
      · exact ih piece hp
    · cases hsp : Split cs sep with
      | nil => exact absurd hsp (Split_ne_nil cs sep)
      | cons p ps =>
        rw [hsp] at ih
        intro piece hp
        rcases List.mem_cons.1 hp with hp | hp
        · rw [hp]
          intro hmem
          rcases List.mem_cons.1 hmem with hmem | hmem
          · exact h hmem.symm
          · exact ih p (List.mem_cons_self _ _) hmem
        · exact ih piece (List.mem_cons_of_mem _ hp)

/-- What `TrimSpace` removes and what it leaves: the string is white space, then
the trimmed string, then white space, and the trimmed string neither starts nor
ends with white space. -/
theorem TrimSpace_spec (s : Str) :
    ∃ l r, s = l ++ TrimSpace s ++ r ∧
      (∀ c ∈ l, isSpace c = true) ∧ (∀ c ∈ r, isSpace c = true) ∧
      (∀ c, (TrimSpace s).head? = some c → isSpace c = false) ∧
      (∀ c, (TrimSpace s).getLast? = some c → isSpace c = false) := by
  have h1 : s = s.takeWhile isSpace ++ s.dropWhile isSpace :=
    (List.takeWhile_append_dropWhile isSpace s).symm
  have h2 : s.dropWhile isSpace
      = TrimSpace s ++ ((s.dropWhile isSpace).reverse.takeWhile isSpace).reverse := by
    unfold TrimSpace
    rw [← List.reverse_append, List.takeWhile_append_dropWhile, List.reverse_reverse]
  have hlast : ∀ c, (TrimSpace s).getLast? = some c → isSpace c = false := by
    intro c hc
    unfold TrimSpace at hc
    rw [List.getLast?_reverse] at hc
    have := List.head?_dropWhile_not isSpace (s.dropWhile isSpace).reverse
    rw [hc] at this
    simpa using this
  refine ⟨s.takeWhile isSpace, ((s.dropWhile isSpace).reverse.takeWhile isSpace).reverse,
    ?_, ?_, ?_, ?_, hlast⟩
  · rw [List.append_assoc, ← h2]
    exact h1
  · intro c hc
    exact List.mem_takeWhile_imp hc
  · intro c hc
    exact List.mem_takeWhile_imp (List.mem_reverse.1 hc)
  · intro c hc
    have hd := List.head?_dropWhile_not isSpace s
    rw [h2] at hd
    cases ht : TrimSpace s with
    | nil => rw [ht] at hc; simp at hc
    | cons a as =>
      rw [ht] at hc hd
      simp only [List.cons_append, List.head?_cons, Option.some.injEq] at hc hd
      rw [← hc]
      simpa using hd

/-- C4. A declaration whose trimmed form is `list[` body `]` parses to the type
"list" with the options being the pieces of body between its commas, in order
(joined by commas they give back body, and no piece holds a comma), each with
surrounding white space trimmed (trimming removes white space only, and leaves
none at either end); `list[a, b ,c]` gives a, b, c; and `text`,
`password`, `confirm` parse to that type without options. The bound on the
length says that the declaration is a Go string. -/
theorem ParsePromptTag_list_options (tag body : Str) (hlen : len tag ≤ intMax)
    (h : TrimSpace tag = "list[".toList ++ body ++ "]".toList) :
    ParsePromptTag tag
      = (some { Type_ := "list".toList, Options := (Split body ',').map TrimSpace }, none) ∧
    [','].intercalate (Split body ',') = body ∧
    (∀ piece ∈ Split body ',', ',' ∉ piece) ∧
    (∀ piece : Str, ∃ l r, piece = l ++ TrimSpace piece ++ r ∧
      (∀ c ∈ l, isSpace c = true) ∧ (∀ c ∈ r, isSpace c = true) ∧
      (∀ c, (TrimSpace piece).head? = some c → isSpace c = false) ∧
      (∀ c, (TrimSpace piece).getLast? = some c → isSpace c = false)) ∧
    ParsePromptTag "list[a, b ,c]".toList
      = (some { Type_ := "list".toList
                Options := ["a".toList, "b".toList, "c".toList] }, none) ∧
    ParsePromptTag "text".toList = (some { Type_ := "text".toList, Options := [] }, none) ∧
    ParsePromptTag "password".toList
      = (some { Type_ := "password".toList, Options := [] }, none) ∧
    ParsePromptTag "confirm".toList
      = (some { Type_ := "confirm".toList, Options := [] }, none) := by
  refine ⟨?_, Split_intercalate body ',', Split_no_sep body ',', TrimSpace_spec,
    by decide, by decide, by decide, by decide⟩
  have hne : tag ≠ [] := by
    intro h0
    rw [h0] at h
    have h1 : ([] : Str) = 'l' :: ("ist[".toList ++ body ++ "]".toList) := h
    exact List.noConfusion h1
  have hl : len ("list[".toList ++ body ++ "]".toList) ≤ intMax := by
    rw [← h]
    have := TrimSpace_length_le tag
    unfold len at hlen ⊢
    omega
  unfold ParsePromptTag
  rw [if_neg hne]
  simp only [h]
  rw [List.append_assoc, HasPrefix_append, ← List.append_assoc, HasSuffix_append,
    slice_list_body body hl]
  rfl

/-- Witness of C4: the list declaration of `examples/struct/main.go`, with
white space around it. -/
theorem ParsePromptTag_list_options_witness :
    (len " list[option 1,option2,option 3] ".toList ≤ intMax ∧
      TrimSpace " list[option 1,option2,option 3] ".toList
        = "list[".toList ++ "option 1,option2,option 3".toList ++ "]".toList) ∧
    ParsePromptTag " list[option 1,option2,option 3] ".toList
      = (some { Type_ := "list".toList
                Options := (Split "option 1,option2,option 3".toList ',').map TrimSpace },
         none) :=
  ⟨by decide,
   (ParsePromptTag_list_options " list[option 1,option2,option 3] ".toList
     "option 1,option2,option 3".toList (by decide) (by decide)).1⟩

/-! ### The orchestrator -/

theorem ParsePromptTag_err (tag : Str) : (ParsePromptTag tag).2 = none := by
  unfold ParsePromptTag
  split_ifs
  · rfl
  · dsimp only
    split_ifs <;> rfl

theorem ParsePromptTag_empty : ParsePromptTag [] = (none, none) := rfl

theorem ParsePromptTag_nonempty (tag : Str) (h : tag ≠ []) :
    ∃ t, ParsePromptTag tag = (some t, none) := by
  unfold ParsePromptTag
  rw [if_neg h]
  dsimp only
  split_ifs
  · exact ⟨_, rfl⟩
  · exact ⟨_, rfl⟩

theorem promptField_untagged (tiUpdate : TextInputUpdate) (f : Field) (term : List Input)
    (h : f.Tag = []) : promptField tiUpdate f term = ⟨[], term, Step.next f⟩ := by
  unfold promptField
  rw [h, ParsePromptTag_empty]

theorem promptField_tagged (tiUpdate : TextInputUpdate) (f : Field) (term : List Input)
    (tag : PromptTag) (h : ParsePromptTag f.Tag = (some tag, none)) :
    promptField tiUpdate f term =
      match builtFor tag f.Name with
      | none => ⟨[], term, Step.leave (Status.returned
          (some ("unknown prompt type: ".toList ++ tag.Type_)))⟩
      | some b => setResult f [b] (b.Run tiUpdate term).1 (b.Run tiUpdate term).2 := by
  unfold promptField
  rw [h]
  unfold builtFor
  dsimp only
  split_ifs <;> rfl

theorem setResult_step (f : Field) (b : List Built) (r : RunResult) (t : List Input) :
    (setResult f b r t).built = b ∧ (setResult f b r t).term = t ∧
    (setResult f b r t).step ≠ Step.leave (Status.returned none) ∧
    (∀ g, (setResult f b r t).step = Step.next g →
      ∃ v, r = RunResult.returned v none ∧ canSet f v = true ∧ g = { f with value := v }) := by
  unfold setResult
  split
  · exact ⟨rfl, rfl, by simp, by simp⟩
  · split_ifs with hc
    · refine ⟨rfl, rfl, by simp, ?_⟩
      intro g hg
      simp only [Step.next.injEq] at hg
      exact ⟨_, rfl, hc, hg.symm⟩
    · exact ⟨rfl, rfl, by simp, by simp⟩
  · exact ⟨rfl, rfl, by simp, by simp⟩
  · exact ⟨rfl, rfl, by simp, by simp⟩

/-- A field that the loop passes is either untagged and unchanged, or tagged and
holds the value its prompt returned; an iteration never leaves with `nil`. -/
theorem promptField_step (tiUpdate : TextInputUpdate) (f : Field) (term : List Input) :
    (promptField tiUpdate f term).step ≠ Step.leave (Status.returned none) ∧
    (∀ g, (promptField tiUpdate f term).step = Step.next g →
      (f.Tag = [] ∧ g = f) ∨
      (f.Tag ≠ [] ∧ ∃ v, canSet f v = true ∧ g = { f with value := v })) := by
  by_cases h : f.Tag = []
  · rw [promptField_untagged tiUpdate f term h]
    refine ⟨by simp, ?_⟩
    intro g hg
    simp only [Step.next.injEq] at hg
    exact Or.inl ⟨h, hg.symm⟩
  · obtain ⟨tag, ht⟩ := ParsePromptTag_nonempty f.Tag h
    rw [promptField_tagged tiUpdate f term tag ht]
    cases builtFor tag f.Name with
    | none => exact ⟨by simp, by simp⟩
    | some b =>
      obtain ⟨-, -, h3, h4⟩ := setResult_step f [b] (b.Run tiUpdate term).1 (b.Run tiUpdate term).2
      refine ⟨h3, ?_⟩
      intro g hg
      obtain ⟨v, -, hc, hv⟩ := h4 g hg
      exact Or.inr ⟨h, v, hc, hv⟩

/-- Processing a record whose first part `pre` passes without failure is
processing `pre` and then the remaining fields on the input `pre` left. -/
theorem promptFields_append (tiUpdate : TextInputUpdate) (pre more : List Field)
    (term : List Input) (pre1 : List Field) (b : List Built) (t1 : List Input)
    (h : promptFields tiUpdate pre term = ⟨pre1, b, t1, Status.returned none⟩) :
    promptFields tiUpdate (pre ++ more) term
      = ⟨pre1 ++ (promptFields tiUpdate more t1).fields,
         b ++ (promptFields tiUpdate more t1).built,
         (promptFields tiUpdate more t1).term,
         (promptFields tiUpdate more t1).status⟩ := by
  induction pre generalizing term pre1 b with
  | nil =>
    simp only [promptFields, Orchestrated.mk.injEq] at h
    obtain ⟨h1, h2, h3, -⟩ := h
    subst h1 h2 h3
    rfl
  | cons f fs ih =>
    simp only [List.cons_append, promptFields] at h ⊢
    have hne := (promptField_step tiUpdate f term).1
    cases hs : (promptField tiUpdate f term).step with
    | leave st =>
      rw [hs] at h hne
      simp only [Orchestrated.mk.injEq] at h
      exact absurd (by rw [h.2.2.2]) hne
    | next g =>
      rw [hs] at h
      simp only [Orchestrated.mk.injEq, List.append_eq] at h ⊢
      obtain ⟨h1, h2, h3, h4⟩ := h
      have := ih (promptField tiUpdate f term).term
        (promptFields tiUpdate fs (promptField tiUpdate f term).term).fields
        (promptFields tiUpdate fs (promptField tiUpdate f term).term).built
        (by rw [← h3, ← h4])
      rw [this]
      simp only [← h1, ← h2, List.cons_append, List.append_assoc, and_self]

/-- The fields of a part of the record that passed without failure: as many as
before, each unchanged if untagged and holding a settable value if tagged. -/
theorem promptFields_passed (tiUpdate : TextInputUpdate) (pre : List Field)
    (term : List Input) (pre1 : List Field) (b : List Built) (t1 : List Input)
    (h : promptFields tiUpdate pre term = ⟨pre1, b, t1, Status.returned none⟩) :
    List.Forall₂ (fun g g1 => (g.Tag = [] ∧ g1 = g) ∨
      (g.Tag ≠ [] ∧ ∃ v, canSet g v = true ∧ g1 = { g with value := v })) pre pre1 := by
  induction pre generalizing term pre1 b with
  | nil =>
    simp only [promptFields, Orchestrated.mk.injEq] at h
    rw [← h.1]
    exact List.Forall₂.nil
  | cons f fs ih =>
    simp only [promptFields] at h
    have hst := promptField_step tiUpdate f term
    cases hs : (promptField tiUpdate f term).step with
    | leave st =>
      rw [hs] at h hst
      simp only [Orchestrated.mk.injEq] at h
      exact absurd (by rw [h.2.2.2]) hst.1
    | next g =>
      rw [hs] at h
      simp only [Orchestrated.mk.injEq] at h
      obtain ⟨h1, h2, h3, h4⟩ := h
      rw [← h1]
      exact List.Forall₂.cons (hst.2 g hs)
        (ih (promptField tiUpdate f term).term _
          (promptFields tiUpdate fs (promptField tiUpdate f term).term).built
          (by rw [← h3, ← h4]))

/-- Counterexample to C5 as stated. The declaration `list` does not match the
grammar, yet the orchestrator constructs a list prompt for it and the error is
"no options provided", not "unknown prompt type"; `list[a]b]` does not match
the grammar (an option holds a bracket), yet it is parsed as a list with the
option `a]b`; and ` text ` does not match the grammar, yet a text prompt runs. -/
theorem unknown_kind_not_for_bare_list :
    ("list".toList ≠ [] ∧ matchesGrammar "list".toList = false ∧
      ParsePromptTag "list".toList = (some { Type_ := "list".toList, Options := [] }, none) ∧
      PromptFromStruct appendRunes (Target.ptrStruct [stringField "Choice" "list"])
          [Input.msg (Msg.key keyEnter)]
        = ⟨[stringField "Choice" "list"], [Built.list "Choice".toList []],
           [Input.msg (Msg.key keyEnter)],
           Status.returned (some "no options provided".toList)⟩) ∧
    ("list[a]b]".toList ≠ [] ∧ matchesGrammar "list[a]b]".toList = false ∧
      ParsePromptTag "list[a]b]".toList
        = (some { Type_ := "list".toList, Options := ["a]b".toList] }, none)) ∧
    (" text ".toList ≠ [] ∧ matchesGrammar " text ".toList = false ∧
      PromptFromStruct appendRunes (Target.ptrStruct [stringField "Name" " text "])
          [Input.msg (Msg.key keyEnter)]
        = ⟨[stringField "Name" " text "], [Built.text "Name".toList], [],
           Status.returned none⟩) := by
  decide

theorem ParsePromptTag_bare (tag : Str) (hne : tag ≠ [])
    (hlist : ¬ (HasPrefix (TrimSpace tag) "list[".toList = true ∧
      HasSuffix (TrimSpace tag) "]".toList = true)) :
    ParsePromptTag tag = (some { Type_ := TrimSpace tag, Options := [] }, none) := by
  unfold ParsePromptTag
  rw [if_neg hne]
  dsimp only
  rw [if_neg (by simpa using hlist)]

/-- C5, amended. A non-empty declaration whose trimmed form is none of `text`,
`password`, `confirm`, `list` and does not both start with `list[` and end with
`]` is returned by `ParsePromptTag` as a bare kind name, trimmed, without
options, and `PromptFromStruct` rejects its field with "unknown prompt type"
followed by that name: no prompt is constructed, no input is read, and the
field and the fields after it stay as they are. -/
theorem unknown_kind_is_rejected (tiUpdate : TextInputUpdate) (f : Field)
    (rest : List Field) (term : List Input) (hne : f.Tag ≠ [])
    (hkind : TrimSpace f.Tag ≠ "text".toList ∧ TrimSpace f.Tag ≠ "password".toList ∧
      TrimSpace f.Tag ≠ "confirm".toList ∧ TrimSpace f.Tag ≠ "list".toList)
    (hlist : ¬ (HasPrefix (TrimSpace f.Tag) "list[".toList = true ∧
      HasSuffix (TrimSpace f.Tag) "]".toList = true)) :
    ParsePromptTag f.Tag = (some { Type_ := TrimSpace f.Tag, Options := [] }, none) ∧
    promptField tiUpdate f term
      = ⟨[], term, Step.leave (Status.returned
          (some ("unknown prompt type: ".toList ++ TrimSpace f.Tag)))⟩ ∧
    PromptFromStruct tiUpdate (Target.ptrStruct (f :: rest)) term
      = ⟨f :: rest, [], term,
         Status.returned (some ("unknown prompt type: ".toList ++ TrimSpace f.Tag))⟩ := by
  have hp := ParsePromptTag_bare f.Tag hne hlist
  have hb : builtFor { Type_ := TrimSpace f.Tag, Options := [] } f.Name = none := by
    unfold builtFor
    simp only [hkind.1, hkind.2.1, hkind.2.2.1, hkind.2.2.2, if_false]
  have hstep : promptField tiUpdate f term
      = ⟨[], term, Step.leave (Status.returned
          (some ("unknown prompt type: ".toList ++ TrimSpace f.Tag)))⟩ := by
    rw [promptField_tagged tiUpdate f term _ hp, hb]
  refine ⟨hp, hstep, ?_⟩
  show promptFields tiUpdate (f :: rest) term = _
  simp only [promptFields, hstep]

/-- Witness of C5, amended: a list declaration without its closing bracket. -/
theorem unknown_kind_is_rejected_witness :
    ((stringField "Choice" "list[a,b").Tag ≠ [] ∧
      (TrimSpace (stringField "Choice" "list[a,b").Tag ≠ "text".toList ∧
        TrimSpace (stringField "Choice" "list[a,b").Tag ≠ "password".toList ∧
        TrimSpace (stringField "Choice" "list[a,b").Tag ≠ "confirm".toList ∧
        TrimSpace (stringField "Choice" "list[a,b").Tag ≠ "list".toList) ∧
      ¬ (HasPrefix (TrimSpace (stringField "Choice" "list[a,b").Tag) "list[".toList = true ∧
        HasSuffix (TrimSpace (stringField "Choice" "list[a,b").Tag) "]".toList = true)) ∧
    PromptFromStruct appendRunes
        (Target.ptrStruct (stringField "Choice" "list[a,b" :: [boolField "Continue" "confirm"]))
        [Input.msg (Msg.key keyEnter)]
      = ⟨stringField "Choice" "list[a,b" :: [boolField "Continue" "confirm"], [],
         [Input.msg (Msg.key keyEnter)],
         Status.returned (some ("unknown prompt type: ".toList
           ++ TrimSpace (stringField "Choice" "list[a,b").Tag))⟩ :=
  ⟨by decide,
   (unknown_kind_is_rejected appendRunes (stringField "Choice" "list[a,b")
     [boolField "Continue" "confirm"] [Input.msg (Msg.key keyEnter)]
     (by decide) (by decide) (by decide)).2.2⟩

/-- C7, at the failing input: a string field tagged `confirm`, answered with
"y". The prompt runs and returns `true`; `reflect.Value.Set` then panics, so
`PromptFromStruct` does not return an error value. -/
theorem confirm_on_string_field_panics :
    PromptFromStruct appendRunes (Target.ptrStruct [stringField "Flag" "confirm"])
        [Input.msg (Msg.key (keyRune 'y'))]
      = ⟨[stringField "Flag" "confirm"], [Built.confirm "Flag".toList], [],
         Status.panicked "reflect.Set".toList⟩ := by
  decide

/-- C6. `PromptFromStruct` processes the fields in declaration order and stops at
the first failure. Let the fields `pre` have passed without failure, giving
`pre1` (each field unchanged if untagged, holding the value of its prompt if
tagged), the prompts `b` and the input `t1`; let `f` be the next field.
If `f` has no tag it is left unchanged and processing goes on with the fields
after it. If the prompt of `f` returns a value without error (and the field can
hold it), `f` is assigned that value and processing goes on with the input the
prompt left. If the kind of `f` is unknown, or its prompt returns an error (a
list prompt without options does so without reading input), that error is
returned at once: `pre1` keeps its values, `f` and the fields after it are as
before, and no prompt is constructed for a later field. A record without
fields returns nil. -/
theorem PromptFromStruct_stops_at_first_error (tiUpdate : TextInputUpdate)
    (pre : List Field) (f : Field) (rest : List Field) (term : List Input)
    (pre1 : List Field) (b : List Built) (t1 : List Input)
    (hpre : PromptFromStruct tiUpdate (Target.ptrStruct pre) term
      = ⟨pre1, b, t1, Status.returned none⟩) :
    PromptFromStruct tiUpdate (Target.ptrStruct []) term
      = ⟨[], [], term, Status.returned none⟩ ∧
    List.Forall₂ (fun g g1 => (g.Tag = [] ∧ g1 = g) ∨
      (g.Tag ≠ [] ∧ ∃ v, canSet g v = true ∧ g1 = { g with value := v })) pre pre1 ∧
    (f.Tag = [] →
      PromptFromStruct tiUpdate (Target.ptrStruct (pre ++ f :: rest)) term
        = ⟨pre1 ++ f :: (PromptFromStruct tiUpdate (Target.ptrStruct rest) t1).fields,
           b ++ (PromptFromStruct tiUpdate (Target.ptrStruct rest) t1).built,
           (PromptFromStruct tiUpdate (Target.ptrStruct rest) t1).term,
           (PromptFromStruct tiUpdate (Target.ptrStruct rest) t1).status⟩) ∧
    (∀ tag, ParsePromptTag f.Tag = (some tag, none) →
      (builtFor tag f.Name = none →
        PromptFromStruct tiUpdate (Target.ptrStruct (pre ++ f :: rest)) term
          = ⟨pre1 ++ f :: rest, b, t1,
             Status.returned (some ("unknown prompt type: ".toList ++ tag.Type_))⟩) ∧
      (∀ pr v e t2, builtFor tag f.Name = some pr →
        pr.Run tiUpdate t1 = (RunResult.returned v (some e), t2) →
        PromptFromStruct tiUpdate (Target.ptrStruct (pre ++ f :: rest)) term
          = ⟨pre1 ++ f :: rest, b ++ [pr], t2, Status.returned (some e)⟩) ∧
      (∀ pr v t2, builtFor tag f.Name = some pr →
        pr.Run tiUpdate t1 = (RunResult.returned v none, t2) → canSet f v = true →
        PromptFromStruct tiUpdate (Target.ptrStruct (pre ++ f :: rest)) term
          = ⟨pre1 ++ { f with value := v }
               :: (PromptFromStruct tiUpdate (Target.ptrStruct rest) t2).fields,
             b ++ pr :: (PromptFromStruct tiUpdate (Target.ptrStruct rest) t2).built,
             (PromptFromStruct tiUpdate (Target.ptrStruct rest) t2).term,
             (PromptFromStruct tiUpdate (Target.ptrStruct rest) t2).status⟩)) ∧
    (∀ q t, (Built.list q []).Run tiUpdate t
      = (RunResult.returned (Value.str []) (some "no options provided".toList), t)) := by
  have happ := promptFields_append tiUpdate pre (f :: rest) term pre1 b t1 hpre
  have hall : PromptFromStruct tiUpdate (Target.ptrStruct (pre ++ f :: rest)) term
      = ⟨pre1 ++ (promptFields tiUpdate (f :: rest) t1).fields,
         b ++ (promptFields tiUpdate (f :: rest) t1).built,
         (promptFields tiUpdate (f :: rest) t1).term,
         (promptFields tiUpdate (f :: rest) t1).status⟩ := happ
  refine ⟨rfl, promptFields_passed tiUpdate pre term pre1 b t1 hpre, ?_, ?_, ?_⟩
  · intro hf
    rw [hall]
    simp only [promptFields, promptField_untagged tiUpdate f t1 hf, List.nil_append]
    rfl
  · intro tag htag
    have hstep := promptField_tagged tiUpdate f t1 tag htag
    refine ⟨?_, ?_, ?_⟩
    · intro hb
      rw [hb] at hstep
      rw [hall]
      simp only [promptFields, hstep, List.append_nil]
    · intro pr v e t2 hb hrun
      rw [hb] at hstep
      simp only [hrun, setResult] at hstep
      rw [hall]
      simp only [promptFields, hstep]
    · intro pr v t2 hb hrun hset
      rw [hb] at hstep
      simp only [hrun, setResult, hset, if_true] at hstep
      rw [hall]
      simp only [promptFields, hstep, List.singleton_append]
      rfl
  · intro q t
    rfl

/-- Witness of C6: a text field answered with "Al", then a field of unknown
kind, then a confirm field that is never reached. -/
theorem PromptFromStruct_stops_at_first_error_witness :
    PromptFromStruct appendRunes (Target.ptrStruct [stringField "Name" "text"])
        (Input.msg (Msg.key (keyRune 'A')) :: Input.msg (Msg.key (keyRune 'l'))
          :: Input.msg (Msg.key keyEnter) :: [Input.msg (Msg.key (keyRune 'y'))])
      = ⟨[{ stringField "Name" "text" with value := Value.str "Al".toList }],
         [Built.text "Name".toList], [Input.msg (Msg.key (keyRune 'y'))],
         Status.returned none⟩ ∧
    PromptFromStruct appendRunes
        (Target.ptrStruct ([stringField "Name" "text"]
          ++ stringField "Age" "number" :: [boolField "Continue" "confirm"]))
        (Input.msg (Msg.key (keyRune 'A')) :: Input.msg (Msg.key (keyRune 'l'))
          :: Input.msg (Msg.key keyEnter) :: [Input.msg (Msg.key (keyRune 'y'))])
      = ⟨[{ stringField "Name" "text" with value := Value.str "Al".toList }]
           ++ stringField "Age" "number" :: [boolField "Continue" "confirm"],
         [Built.text "Name".toList], [Input.msg (Msg.key (keyRune 'y'))],
         Status.returned (some ("unknown prompt type: ".toList ++ "number".toList))⟩ :=
  ⟨by decide,
   ((PromptFromStruct_stops_at_first_error appendRunes [stringField "Name" "text"]
      (stringField "Age" "number") [boolField "Continue" "confirm"]
      (Input.msg (Msg.key (keyRune 'A')) :: Input.msg (Msg.key (keyRune 'l'))
        :: Input.msg (Msg.key keyEnter) :: [Input.msg (Msg.key (keyRune 'y'))])
      [{ stringField "Name" "text" with value := Value.str "Al".toList }]
      [Built.text "Name".toList] [Input.msg (Msg.key (keyRune 'y'))]
      (by decide)).2.2.2.1 { Type_ := "number".toList, Options := [] } (by decide)).1
     (by decide)⟩

/-! ### The list prompt: the ends of the list -/

theorem listModel_Update_down_cursor (m : listModel) (k : KeyMsg)
    (hk : k.name = "down".toList ∨ k.name = "j".toList)
    (hlen : len m.prompt.Options ≤ intMax)
    (h0 : 0 ≤ m.cursor) (h1 : m.cursor ≤ len m.prompt.Options - 1) :
    (listModel.Update m (Msg.key k)).1.cursor
      = min (m.cursor + 1) (len m.prompt.Options - 1) := by
  have hnup : ¬ (k.name = "up".toList ∨ k.name = "k".toList) := by
    rcases hk with hk | hk <;> rw [hk] <;> decide
  have hl : subInt (len m.prompt.Options) 1 = len m.prompt.Options - 1 := by
    unfold intMax at hlen; simp only [subInt, wrapInt]; omega
  have hc : addInt m.cursor 1 = m.cursor + 1 := by
    unfold intMax at hlen; simp only [addInt, wrapInt]; omega
  unfold listModel.Update
  simp only [hnup, hk, if_true, if_false, hl, hc]
  split_ifs with ha hb
  · show m.cursor + 1 = _
    omega
  · show m.cursor + 1 = _
    omega
  · show m.cursor = _
    omega

theorem listModel_feed_downs_cursor (downs : List KeyMsg) (m : listModel)
    (hdowns : ∀ k ∈ downs, k.name = "down".toList ∨ k.name = "j".toList)
    (hlen : len m.prompt.Options ≤ intMax)
    (h0 : 0 ≤ m.cursor) (h1 : m.cursor ≤ len m.prompt.Options - 1) :
    (m.feed (downs.map Msg.key)).cursor
      = min (m.cursor + len downs) (len m.prompt.Options - 1) := by
  induction downs generalizing m with
  | nil =>
    show m.cursor = _
    simp only [len, List.length_nil] at *
    omega
  | cons k ks ih =>
    have hk := hdowns k (List.mem_cons_self _ _)
    have hp := listModel_Update_prompt m (Msg.key k)
    have hc := listModel_Update_down_cursor m k hk hlen h0 h1
    have := ih (listModel.Update m (Msg.key k)).1
      (fun k' hk' => hdowns k' (List.mem_cons_of_mem _ hk'))
      (by rw [hp]; exact hlen) (by rw [hc]; omega) (by rw [hc, hp]; omega)
    show ((listModel.Update m (Msg.key k)).1.feed (ks.map Msg.key)).cursor = _
    rw [this, hc, hp]
    simp only [len, List.length_cons] at *
    push_cast
    omega

/-- C11. The cursor of a list prompt does not wrap. From a state with cursor 0
and `n ≥ 1` options, `n` presses of "down" (or "j") put the cursor on `n - 1`;
a further "down" leaves that state unchanged, cursor and offset; and "up" (or
"k") at cursor 0 leaves the state unchanged. -/
theorem list_cursor_does_not_wrap (m : listModel) (downs : List KeyMsg) (d u : KeyMsg)
    (hn : 1 ≤ len m.prompt.Options) (hlen : len m.prompt.Options ≤ intMax)
    (hc : m.cursor = 0)
    (hdowns : ∀ k ∈ downs, k.name = "down".toList ∨ k.name = "j".toList)
    (hcount : len downs = len m.prompt.Options)
    (hd : d.name = "down".toList ∨ d.name = "j".toList)
    (hu : u.name = "up".toList ∨ u.name = "k".toList) :
    (m.feed (downs.map Msg.key)).cursor = len m.prompt.Options - 1 ∧
    listModel.Update (m.feed (downs.map Msg.key)) (Msg.key d)
      = (m.feed (downs.map Msg.key), Cmd.nil) ∧
    listModel.Update m (Msg.key u) = (m, Cmd.nil) := by
  have hcur : (m.feed (downs.map Msg.key)).cursor = len m.prompt.Options - 1 := by
    rw [listModel_feed_downs_cursor downs m hdowns hlen (by omega) (by omega), hc, hcount]
    omega
  refine ⟨hcur, ?_, ?_⟩
  · have hnup : ¬ (d.name = "up".toList ∨ d.name = "k".toList) := by
      rcases hd with hd | hd <;> rw [hd] <;> decide
    have hp : (m.feed (downs.map Msg.key)).prompt = m.prompt := listModel_feed_prompt _ m
    have hl : subInt (len m.prompt.Options) 1 = len m.prompt.Options - 1 := by
      unfold intMax at hlen; simp only [subInt, wrapInt]; omega
    unfold listModel.Update
    simp only [hnup, hd, if_true, if_false, hp, hl, hcur, lt_self_iff_false]
  · unfold listModel.Update
    simp only [hu, if_true, hc, gt_iff_lt, lt_self_iff_false, if_false]

/-- Witness of C11: five presses of "down" on the example list. -/
theorem list_cursor_does_not_wrap_witness :
    (1 ≤ len exampleList.initialModel.prompt.Options ∧
      len exampleList.initialModel.prompt.Options ≤ intMax ∧
      exampleList.initialModel.cursor = 0 ∧
      (∀ k ∈ [keyDown, keyDown, keyDown, keyDown, keyDown],
        k.name = "down".toList ∨ k.name = "j".toList) ∧
      len [keyDown, keyDown, keyDown, keyDown, keyDown]
        = len exampleList.initialModel.prompt.Options ∧
      (keyDown.name = "down".toList ∨ keyDown.name = "j".toList) ∧
      (keyUp.name = "up".toList ∨ keyUp.name = "k".toList)) ∧
    (exampleList.initialModel.feed
      ([keyDown, keyDown, keyDown, keyDown, keyDown].map Msg.key)).cursor = 4 :=
  ⟨by decide,
   (list_cursor_does_not_wrap exampleList.initialModel
     [keyDown, keyDown, keyDown, keyDown, keyDown] keyDown keyUp
     (by decide) (by decide) (by decide) (by decide) (by decide) (by decide)
     (by decide)).1⟩

/-! ### Interrupting a text or password prompt -/

/-- C12. The interrupt key (`ctrl+c`) on a text or password prompt: `Update`
quits with the model, hence the buffer, unchanged, whatever the validator says
about the buffer; and `Run` returns the buffer reached before the interrupt,
with a nil error, exactly as for an accepted answer. So a buffer that the
validator rejects is returned by `Run` with a nil error. -/
theorem interrupt_returns_buffer (tiUpdate : TextInputUpdate) (k : KeyMsg)
    (hk : k.Type_ = KeyType.KeyCtrlC) :
    (∀ m : textModel, textModel.Update tiUpdate m (Msg.key k) = (m, Cmd.Quit)) ∧
    (∀ m : passwordModel, passwordModel.Update tiUpdate m (Msg.key k) = (m, Cmd.Quit)) ∧
    (∀ (p : TextPrompt) (msgs : List Msg) (m1 : textModel) (rest : List Input),
      feedNoQuit (textModel.Update tiUpdate) p.initialModel msgs = some m1 →
      (p.Run tiUpdate (msgs.map Input.msg ++ Input.msg (Msg.key k) :: rest)).result
        = RunResult.returned (Value.str m1.textInput.Value) none) ∧
    (∀ (p : PasswordPrompt) (msgs : List Msg) (m1 : passwordModel) (rest : List Input),
      feedNoQuit (passwordModel.Update tiUpdate) p.initialModel msgs = some m1 →
      (p.Run tiUpdate (msgs.map Input.msg ++ Input.msg (Msg.key k) :: rest)).result
        = RunResult.returned (Value.str m1.textInput.Value) none) ∧
    (∀ (p : TextPrompt) (msgs : List Msg) (m1 : textModel) (rest : List Input) v e,
      feedNoQuit (textModel.Update tiUpdate) p.initialModel msgs = some m1 →
      p.Validator = some v → v m1.textInput.Value = some e →
      (p.Run tiUpdate (msgs.map Input.msg ++ Input.msg (Msg.key k) :: rest)).result
        = RunResult.returned (Value.str m1.textInput.Value) none) := by
  have ht : ∀ m : textModel, textModel.Update tiUpdate m (Msg.key k) = (m, Cmd.Quit) := by
    intro m
    unfold textModel.Update
    simp only [hk]
  have hp : ∀ m : passwordModel,
      passwordModel.Update tiUpdate m (Msg.key k) = (m, Cmd.Quit) := by
    intro m
    unfold passwordModel.Update
    simp only [hk]
  have hrt : ∀ (p : TextPrompt) (msgs : List Msg) (m1 : textModel) (rest : List Input),
      feedNoQuit (textModel.Update tiUpdate) p.initialModel msgs = some m1 →
      (p.Run tiUpdate (msgs.map Input.msg ++ Input.msg (Msg.key k) :: rest)).result
        = RunResult.returned (Value.str m1.textInput.Value) none := by
    intro p msgs m1 rest hfeed
    have := programRun_of_feedNoQuit (textModel.Update tiUpdate) msgs
      p.initialModel m1 m1 (Msg.key k) rest hfeed (ht m1)
    unfold TextPrompt.Run
    simp only [this]
  refine ⟨ht, hp, hrt, ?_, ?_⟩
  · intro p msgs m1 rest hfeed
    have := programRun_of_feedNoQuit (passwordModel.Update tiUpdate) msgs
      p.initialModel m1 m1 (Msg.key k) rest hfeed (hp m1)
    unfold PasswordPrompt.Run
    simp only [this]
  · intro p msgs m1 rest v e hfeed _ _
    exact hrt p msgs m1 rest hfeed

/-- Witness of C12: on the example prompts, whose validator rejects "abc",
typing "abc" and interrupting returns "abc" with a nil error. -/
theorem interrupt_returns_buffer_witness :
    keyCtrlC.Type_ = KeyType.KeyCtrlC ∧
    minLengthValidator "abc".toList
      = some "password must be at least 8 characters long".toList ∧
    (exampleText.Run appendRunes
        ((typed "abc").map Input.msg ++ Input.msg (Msg.key keyCtrlC) :: [])).result
      = RunResult.returned (Value.str "abc".toList) none ∧
    (examplePassword.Run appendRunes
        ((typed "abc").map Input.msg ++ Input.msg (Msg.key keyCtrlC) :: [])).result
      = RunResult.returned (Value.str "abc".toList) none :=
  ⟨rfl, by decide,
   (interrupt_returns_buffer appendRunes keyCtrlC rfl).2.2.2.2 exampleText (typed "abc")
     (exampleTextAfter "abc") [] minLengthValidator
     "password must be at least 8 characters long".toList rfl rfl (by decide),
   (interrupt_returns_buffer appendRunes keyCtrlC rfl).2.2.2.1 examplePassword (typed "abc")
     (examplePasswordAfter "abc") [] rfl⟩

/-! ### The parser never fails -/

/-- C13. `ParsePromptTag` never returns an error. It returns no tag exactly for
the empty declaration, and for a non-empty declaration a tag whose type is
"list" or the trimmed declaration. In the loop of `PromptFromStruct` a field
without declaration is therefore passed unchanged, without a prompt. -/
theorem ParsePromptTag_never_fails (tag : Str) :
    (ParsePromptTag tag).2 = none ∧
    ((ParsePromptTag tag).1 = none ↔ tag = []) ∧
    (tag ≠ [] → ∃ t, ParsePromptTag tag = (some t, none) ∧
      (t.Type_ = "list".toList ∨ t.Type_ = TrimSpace tag)) ∧
    (∀ (tiUpdate : TextInputUpdate) (f : Field) (term : List Input), f.Tag = [] →
      promptField tiUpdate f term = ⟨[], term, Step.next f⟩) := by
  have hnon : tag ≠ [] → ∃ t, ParsePromptTag tag = (some t, none) ∧
      (t.Type_ = "list".toList ∨ t.Type_ = TrimSpace tag) := by
    intro h
    unfold ParsePromptTag
    rw [if_neg h]
    dsimp only
    split_ifs
    · exact ⟨_, rfl, Or.inl rfl⟩
    · exact ⟨_, rfl, Or.inr rfl⟩
  refine ⟨?_, ?_, hnon, ?_⟩
  · unfold ParsePromptTag
    split_ifs
    · rfl
    · dsimp only
      split_ifs <;> rfl
  · constructor
    · intro h
      by_contra hne
      obtain ⟨t, ht, -⟩ := hnon hne
      rw [ht] at h
      simp at h
    · intro h
      rw [h]
      rfl
  · intro tiUpdate f term hf
    unfold promptField
    rw [hf]
    rfl

/-- Witness of C13: a declaration of unknown kind, with white space around it. -/
theorem ParsePromptTag_never_fails_witness :
    " number ".toList ≠ [] ∧
    ∃ t, ParsePromptTag " number ".toList = (some t, none) ∧
      (t.Type_ = "list".toList ∨ t.Type_ = TrimSpace " number ".toList) :=
  ⟨by decide, (ParsePromptTag_never_fails " number ".toList).2.2.1 (by decide)⟩

/-! ### The methods `Validate` -/

/-- C15. `Validate` on a text or password prompt returns what the validator
returns on the input when a validator is configured, and nil when none is; on
a confirmation or list prompt it returns nil for every input, whatever the
validator. -/
theorem Validate_contract (input : Str) :
    (∀ (p : TextPrompt) v, p.Validator = some v → p.Validate input = v input) ∧
    (∀ p : TextPrompt, p.Validator = none → p.Validate input = none) ∧
    (∀ (p : PasswordPrompt) v, p.Validator = some v → p.Validate input = v input) ∧
    (∀ p : PasswordPrompt, p.Validator = none → p.Validate input = none) ∧
    (∀ p : ConfirmPrompt, p.Validate input = none) ∧
    (∀ p : ListPrompt, p.Validate input = none) := by
  refine ⟨?_, ?_, ?_, ?_, ?_, ?_⟩
  · intro p v h
    unfold TextPrompt.Validate
    rw [h]
  · intro p h
    unfold TextPrompt.Validate
    rw [h]
  · intro p v h
    unfold PasswordPrompt.Validate
    rw [h]
  · intro p h
    unfold PasswordPrompt.Validate
    rw [h]
  · intro p
    rfl
  · intro p
    rfl

/-- Witness of C15: the example validator through `Validate`, and a confirmation
prompt that carries the same validator. -/
theorem Validate_contract_witness :
    exampleText.Validate "abc".toList
      = some "password must be at least 8 characters long".toList ∧
    (NewText "Name".toList).Validate "abc".toList = none ∧
    ({ exampleConfirm with Validator := some minLengthValidator } : ConfirmPrompt).Validate
      "abc".toList = none :=
  ⟨((Validate_contract "abc".toList).1 exampleText minLengthValidator rfl).trans
     (by decide),
   (Validate_contract "abc".toList).2.1 (NewText "Name".toList) rfl,
   (Validate_contract "abc".toList).2.2.2.2.1 _⟩

/-! ### The end-to-end scenario -/

/-- C14. A record with a string field tagged `text` followed by a boolean field
tagged `confirm`, driven by the events Enter, "y", Enter: `PromptFromStruct`
returns nil, the first field holds the empty string and the second `true`. The
text prompt ends at the first Enter, the confirmation prompt at "y"; the last
Enter is left unread. This holds for every text input behaviour `tiUpdate`. -/
theorem end_to_end_text_then_confirm (tiUpdate : TextInputUpdate) (f1 f2 : Field)
    (enter y : KeyMsg)
    (h1 : f1.Type_ = GoType.string ∧ f1.Tag = "text".toList ∧ f1.Exported = true)
    (h2 : f2.Type_ = GoType.bool ∧ f2.Tag = "confirm".toList ∧ f2.Exported = true)
    (he : enter.Type_ = KeyType.KeyEnter ∧ enter.name = "enter".toList)
    (hy : y.name = "y".toList) :
    PromptFromStruct tiUpdate (Target.ptrStruct [f1, f2])
        [Input.msg (Msg.key enter), Input.msg (Msg.key y), Input.msg (Msg.key enter)]
      = ⟨[{ f1 with value := Value.str [] }, { f2 with value := Value.bool true }],
         [Built.text f1.Name, Built.confirm f2.Name],
         [Input.msg (Msg.key enter)],
         Status.returned none⟩ := by
  obtain ⟨n1, ty1, tag1, ex1, v1⟩ := f1
  obtain ⟨n2, ty2, tag2, ex2, v2⟩ := f2
  obtain ⟨ety, ename⟩ := enter
  obtain ⟨yty, yname⟩ := y
  obtain ⟨h1a, h1b, h1c⟩ := h1
  obtain ⟨h2a, h2b, h2c⟩ := h2
  obtain ⟨hea, heb⟩ := he
  simp only at h1a h1b h1c h2a h2b h2c hea heb hy
  subst h1a h1b h1c h2a h2b h2c hea heb hy
  have ht : (promptField tiUpdate ⟨n1, GoType.string, "text".toList, true, v1⟩
      [Input.msg (Msg.key ⟨KeyType.KeyEnter, "enter".toList⟩),
       Input.msg (Msg.key ⟨yty, "y".toList⟩),
       Input.msg (Msg.key ⟨KeyType.KeyEnter, "enter".toList⟩)])
      = ⟨[Built.text n1],
         [Input.msg (Msg.key ⟨yty, "y".toList⟩),
          Input.msg (Msg.key ⟨KeyType.KeyEnter, "enter".toList⟩)],
         Step.next ⟨n1, GoType.string, "text".toList, true, Value.str []⟩⟩ := by
    rfl
  have hc : (promptField tiUpdate ⟨n2, GoType.bool, "confirm".toList, true, v2⟩
      [Input.msg (Msg.key ⟨yty, "y".toList⟩),
       Input.msg (Msg.key ⟨KeyType.KeyEnter, "enter".toList⟩)])
      = ⟨[Built.confirm n2],
         [Input.msg (Msg.key ⟨KeyType.KeyEnter, "enter".toList⟩)],
         Step.next ⟨n2, GoType.bool, "confirm".toList, true, Value.bool true⟩⟩ := by
    rfl
  show promptFields tiUpdate _ _ = _
  simp only [promptFields, ht, hc]
  rfl

/-- Witness of C14: the fields `Name` and `Continue` of `examples/struct/main.go`. -/
theorem end_to_end_text_then_confirm_witness :
    (((stringField "Name" "text").Type_ = GoType.string ∧
        (stringField "Name" "text").Tag = "text".toList ∧
        (stringField "Name" "text").Exported = true) ∧
      ((boolField "Continue" "confirm").Type_ = GoType.bool ∧
        (boolField "Continue" "confirm").Tag = "confirm".toList ∧
        (boolField "Continue" "confirm").Exported = true) ∧
      (keyEnter.Type_ = KeyType.KeyEnter ∧ keyEnter.name = "enter".toList) ∧
      (keyRune 'y').name = "y".toList) ∧
    PromptFromStruct appendRunes
        (Target.ptrStruct [stringField "Name" "text", boolField "Continue" "confirm"])
        [Input.msg (Msg.key keyEnter), Input.msg (Msg.key (keyRune 'y')),
         Input.msg (Msg.key keyEnter)]
      = ⟨[{ stringField "Name" "text" with value := Value.str [] },
          { boolField "Continue" "confirm" with value := Value.bool true }],
         [Built.text (stringField "Name" "text").Name,
          Built.confirm (boolField "Continue" "confirm").Name],
         [Input.msg (Msg.key keyEnter)],
         Status.returned none⟩ :=
  ⟨by decide,
   end_to_end_text_then_confirm appendRunes (stringField "Name" "text")
     (boolField "Continue" "confirm") keyEnter (keyRune 'y')
     (by decide) (by decide) (by decide) (by decide)⟩

/-! ### Bracketed list declarations -/

theorem Split_length (s : Str) (sep : Char) : (Split s sep).length = s.count sep + 1 := by
  induction s with
  | nil => rfl
  | cons c cs ih =>
    unfold Split
    split_ifs with h
    · rw [List.length_cons, ih, h, List.count_cons_self]
    · cases hsp : Split cs sep with
      | nil => exact absurd hsp (Split_ne_nil cs sep)
      | cons p ps =>
        rw [hsp] at ih
        have hne : (c == sep) = false := by simpa using h
        rw [List.count_cons, hne]
        simpa using ih

theorem ParsePromptTag_bracketed (tag body : Str) (hlen : len tag ≤ intMax)
    (h : TrimSpace tag = "list[".toList ++ body ++ "]".toList) :
    ParsePromptTag tag
      = (some { Type_ := "list".toList, Options := (Split body ',').map TrimSpace }, none) := by
  have hne : tag ≠ [] := by
    intro h0
    rw [h0] at h
    have h1 : ([] : Str) = 'l' :: ("ist[".toList ++ body ++ "]".toList) := h
    exact List.noConfusion h1
  have hl : len ("list[".toList ++ body ++ "]".toList) ≤ intMax := by
    rw [← h]
    have := TrimSpace_length_le tag
    unfold len at hlen ⊢
    omega
  unfold ParsePromptTag
  rw [if_neg hne]
  simp only [h]
  rw [List.append_assoc, HasPrefix_append, ← List.append_assoc, HasSuffix_append,
    slice_list_body body hl]
  rfl

theorem ListPrompt_Run_program (p : ListPrompt) (term : List Input) (h : p.Options ≠ []) :
    (p.Run term).prompt.Program = some Program.handle := by
  have hne : ¬ len p.Options = 0 := by
    unfold len
    cases hp : p.Options with
    | nil => exact absurd hp h
    | cons a as =>
      simp only [List.length_cons]
      omega
  unfold ListPrompt.Run
  rw [if_neg hne]
  dsimp only
  split
  · rfl
  · rfl
  · split <;> rfl

/-- C20. A declaration whose trimmed form is `list[` body `]` always gives at
least one option: as many as body has commas, plus one; `list[]` gives the
single empty option. So the list prompt built for it passes the empty-options
guard of `Run` (the program is created, and without input `Run` waits). Among
all declarations parsed to the type "list", only the bare `list` (white space
around it aside) comes without options, and for it the guard fires: the field
is rejected with "no options provided" and no input is read. -/
theorem bracketed_list_has_options (tag body : Str) (hlen : len tag ≤ intMax)
    (h : TrimSpace tag = "list[".toList ++ body ++ "]".toList) :
    (∃ opts, ParsePromptTag tag = (some { Type_ := "list".toList, Options := opts }, none) ∧
      opts.length = body.count ',' + 1 ∧ opts ≠ [] ∧
      (∀ q term, ((NewList q opts).Run term).prompt.Program = some Program.handle) ∧
      (∀ (tiUpdate : TextInputUpdate) (f : Field), f.Tag = tag →
        promptField tiUpdate f []
          = ⟨[Built.list f.Name opts], [], Step.leave Status.blocked⟩)) ∧
    ParsePromptTag "list[]".toList
      = (some { Type_ := "list".toList, Options := [[]] }, none) ∧
    (∀ (d : Str) (t : PromptTag), ParsePromptTag d = (some t, none) →
      t.Type_ = "list".toList → t.Options = [] → TrimSpace d = "list".toList) ∧
    (∀ (tiUpdate : TextInputUpdate) (f : Field) (term : List Input),
      f.Tag ≠ [] → TrimSpace f.Tag = "list".toList →
      promptField tiUpdate f term
        = ⟨[Built.list f.Name []], term,
           Step.leave (Status.returned (some "no options provided".toList))⟩) := by
  have hp := ParsePromptTag_bracketed tag body hlen h
  have hlen' : ((Split body ',').map TrimSpace).length = body.count ',' + 1 := by
    rw [List.length_map, Split_length]
  have hne : (Split body ',').map TrimSpace ≠ [] := by
    intro h0
    rw [h0] at hlen'
    simp at hlen'
  refine ⟨⟨_, hp, hlen', hne, ?_, ?_⟩, by decide, ?_, ?_⟩
  · intro q term
    exact ListPrompt_Run_program (NewList q _) term hne
  · intro tiUpdate f hf
    have hb : builtFor { Type_ := "list".toList, Options := (Split body ',').map TrimSpace }
        f.Name = some (Built.list f.Name ((Split body ',').map TrimSpace)) := by
      unfold builtFor
      rfl
    rw [promptField_tagged tiUpdate f [] _ (by rw [hf]; exact hp), hb]
    have hlen0 : ¬ len (NewList f.Name ((Split body ',').map TrimSpace)).Options = 0 := by
      show ¬ len ((Split body ',').map TrimSpace) = 0
      unfold len
      rw [hlen']
      omega
    simp only [Built.Run, ListPrompt.Run, if_neg hlen0, programRun, setResult]
  · intro d t hd hty hop
    unfold ParsePromptTag at hd
    by_cases h1 : d = []
    · rw [if_pos h1] at hd
      simp at hd
    · rw [if_neg h1] at hd
      dsimp only at hd
      by_cases h2 : (HasPrefix (TrimSpace d) "list[".toList
          && HasSuffix (TrimSpace d) "]".toList) = true
      · rw [if_pos h2] at hd
        simp only [Prod.mk.injEq, Option.some.injEq, and_true] at hd
        rw [← hd] at hop
        simp only [List.map_eq_nil_iff] at hop
        exact absurd hop (Split_ne_nil _ _)
      · rw [if_neg h2] at hd
        simp only [Prod.mk.injEq, Option.some.injEq, and_true] at hd
        rw [← hd] at hty
        exact hty
  · intro tiUpdate f term hne hl
    have hnl : ¬ (HasPrefix (TrimSpace f.Tag) "list[".toList = true ∧
        HasSuffix (TrimSpace f.Tag) "]".toList = true) := by
      rw [hl]
      decide
    have hpb := ParsePromptTag_bare f.Tag hne hnl
    rw [hl] at hpb
    rw [promptField_tagged tiUpdate f term _ hpb]
    rfl

/-- Witness of C20: the list declaration of `examples/struct/main.go`. -/
theorem bracketed_list_has_options_witness :
    (len "list[option 1,option2,option 3]".toList ≤ intMax ∧
      TrimSpace "list[option 1,option2,option 3]".toList
        = "list[".toList ++ "option 1,option2,option 3".toList ++ "]".toList) ∧
    ∃ opts, ParsePromptTag "list[option 1,option2,option 3]".toList
        = (some { Type_ := "list".toList, Options := opts }, none) ∧
      opts.length = "option 1,option2,option 3".toList.count ',' + 1 ∧ opts ≠ [] :=
  ⟨by decide,
   let ⟨opts, h1, h2, h3, _⟩ := (bracketed_list_has_options
     "list[option 1,option2,option 3]".toList "option 1,option2,option 3".toList
     (by decide) (by decide)).1
   ⟨opts, h1, h2, h3⟩⟩

/-! ### The password prompt is the text prompt -/

/-- The event loop commutes with a map of models that commutes with the
transition functions. -/
theorem programRun_map {M N : Type} (f : M → N) (u1 : M → Msg → M × Cmd)
    (u2 : N → Msg → N × Cmd)
    (hsim : ∀ m x, u2 (f m) x = (f (u1 m x).1, (u1 m x).2))
    (term : List Input) (m : M) :
    programRun u2 (f m) term
      = (programRun u1 m term).map (fun r => ((f r.1.1, r.1.2), r.2)) := by
  induction term generalizing m with
  | nil => rfl
  | cons x xs ih =>
    cases x with
    | fail e => rfl
    | msg y =>
      simp only [programRun, hsim]
      rcases hu : u1 m y with ⟨m1, c⟩
      cases c with
      | Quit => rfl
      | nil => exact ih m1
      | other t => exact ih m1

theorem passwordModel_Update_toText (tiUpdate : TextInputUpdate) (m : passwordModel)
    (msg : Msg) :
    textModel.Update tiUpdate m.toText msg
      = ((passwordModel.Update tiUpdate m msg).1.toText,
         (passwordModel.Update tiUpdate m msg).2) := by
  unfold textModel.Update passwordModel.Update
  cases msg with
  | other t => rfl
  | key k =>
    obtain ⟨ty, name⟩ := k
    cases ty with
    | KeyEnter =>
      show (match m.prompt.Validator with
        | some validator =>
          match validator m.textInput.Value with
          | some err => (({ m.toText with err := some err } : textModel), Cmd.nil)
          | none => (m.toText, Cmd.Quit)
        | none => (m.toText, Cmd.Quit)) = _
      cases hv : m.prompt.Validator with
      | none => simp only [hv]
      | some v =>
        simp only [hv]
        cases hr : v m.textInput.Value with
        | none => simp only [hr]
        | some e => simp only [hr]; rfl
    | KeyCtrlC => rfl
    | KeyUp => rfl
    | KeyDown => rfl
    | KeyRunes => rfl
    | KeyOther c => rfl

theorem PasswordPrompt_prepared_toText (p : PasswordPrompt) :
    p.prepared.toText = p.toText.prepared := by
  unfold PasswordPrompt.prepared TextPrompt.prepared PasswordPrompt.toText
  dsimp only
  split_ifs <;> rfl

theorem PasswordPrompt_initialModel_toText (p : PasswordPrompt) :
    p.initialModel.toText = p.toText.initialModel := by
  unfold PasswordPrompt.initialModel TextPrompt.initialModel passwordModel.toText
  simp only [PasswordPrompt_prepared_toText]
  congr 1
  rw [← PasswordPrompt_prepared_toText]
  rfl

/-- C16. The password state machine is the text state machine. Seen as text
models, `passwordModel.Update` and `textModel.Update` are the same transition:
the same next buffer, the same recorded error, the same command. `Run` builds
the initial model the same way (buffer seeded from `Default`), and returns the
same result, leaves the same input and the same prompt. The mask character set
by `NewPassword` is a setting of the text input only: what `Run` returns is the
buffer, so typing "secret" returns "secret". -/
theorem password_is_text_state_machine (tiUpdate : TextInputUpdate) :
    (∀ (m : passwordModel) (msg : Msg),
      textModel.Update tiUpdate m.toText msg
        = ((passwordModel.Update tiUpdate m msg).1.toText,
           (passwordModel.Update tiUpdate m msg).2)) ∧
    (∀ (m : passwordModel) (msg : Msg),
      (passwordModel.Update tiUpdate m msg).1.textInput
        = (textModel.Update tiUpdate m.toText msg).1.textInput ∧
      (passwordModel.Update tiUpdate m msg).1.err
        = (textModel.Update tiUpdate m.toText msg).1.err ∧
      (passwordModel.Update tiUpdate m msg).2
        = (textModel.Update tiUpdate m.toText msg).2 ∧
      (passwordModel.Update tiUpdate m msg).1.prompt.Validator = m.prompt.Validator) ∧
    (∀ p : PasswordPrompt, p.initialModel.toText = p.toText.initialModel) ∧
    (∀ (p : PasswordPrompt) (term : List Input),
      (p.Run tiUpdate term).result = (p.toText.Run tiUpdate term).result ∧
      (p.Run tiUpdate term).term = (p.toText.Run tiUpdate term).term ∧
      (p.Run tiUpdate term).prompt.toText = (p.toText.Run tiUpdate term).prompt) ∧
    (∀ q, (NewPassword q).textInput.EchoMode = EchoMode.EchoPassword ∧
      (NewPassword q).textInput.EchoCharacter = '•' ∧
      (NewPassword q).toText.toBasePrompt = (NewText q).toBasePrompt ∧
      (NewPassword q).textInput.value = (NewText q).textInput.value) ∧
    (∀ q, ((NewPassword q).Run appendRunes
        ((typed "secret").map Input.msg ++ [Input.msg (Msg.key keyEnter)])).result
      = RunResult.returned (Value.str "secret".toList) none) := by
  refine ⟨passwordModel_Update_toText tiUpdate, ?_, PasswordPrompt_initialModel_toText, ?_,
    ?_, ?_⟩
  · intro m msg
    have h := passwordModel_Update_toText tiUpdate m msg
    rw [h]
    refine ⟨rfl, rfl, rfl, ?_⟩
    have hp : (textModel.Update tiUpdate m.toText msg).1.prompt = m.toText.prompt :=
      textModel_Update_prompt tiUpdate m.toText msg
    rw [h] at hp
    have : (passwordModel.Update tiUpdate m msg).1.toText.prompt.Validator
        = m.toText.prompt.Validator := by rw [hp]
    exact this
  · intro p term
    have hrun := programRun_map passwordModel.toText (passwordModel.Update tiUpdate)
      (textModel.Update tiUpdate)
      (fun m x => passwordModel_Update_toText tiUpdate m x) term p.initialModel
    rw [PasswordPrompt_initialModel_toText] at hrun
    unfold PasswordPrompt.Run TextPrompt.Run
    simp only [hrun]
    cases hr : programRun (passwordModel.Update tiUpdate) p.initialModel term with
    | none => exact ⟨rfl, rfl, PasswordPrompt_prepared_toText p⟩
    | some r =>
      obtain ⟨⟨m1, e⟩, rest⟩ := r
      cases e with
      | none => exact ⟨rfl, rfl, PasswordPrompt_prepared_toText p⟩
      | some err => exact ⟨rfl, rfl, PasswordPrompt_prepared_toText p⟩
  · intro q
    exact ⟨rfl, rfl, rfl, rfl⟩
  · intro q
    rfl

/-! ### The view of the list prompt -/

/-- Counterexample to C17 as stated. The state `overflowState` (five options,
`PageSize` the largest `int`, cursor 1, offset 1) satisfies the ListState
invariant on mathematical integers, with at least one option and a page size
of at least one. `listModel.View` computes `endIdx = offset + PageSize` on
`int`, where it wraps to the smallest `int`; the clamp to the length does not
apply, `offset ≤ endIdx` fails, and the slice expression is out of range: the
view panics instead of rendering. -/
theorem view_slices_out_of_range_on_overflow :
    overflowState.SpecInv ∧ 1 ≤ len overflowState.prompt.Options ∧
    len overflowState.prompt.Options ≤ intMax ∧
    1 ≤ overflowState.prompt.PageSize ∧ overflowState.prompt.PageSize ≤ intMax ∧
    overflowState.endIdx = intMin ∧
    ¬ (overflowState.offset ≤ overflowState.endIdx) ∧
    overflowState.endIdx
      ≠ min (overflowState.offset + overflowState.prompt.PageSize)
          (len overflowState.prompt.Options) ∧
    overflowState.visibleOptions = none ∧
    overflowState.View plainRender = none := by
  refine ⟨?_, by decide, by decide, by decide, by decide, by decide, by decide, by decide,
    by decide, by decide⟩
  unfold listModel.SpecInv
  decide

/-- C17, amended. On a state that satisfies the ListState invariant and whose
window end `offset + PageSize` is a value of type `int`, `listModel.View`
slices within bounds (`0 ≤ offset ≤ endIdx ≤ n` with
`endIdx = min (offset + PageSize) n`), renders the options from `offset` up to
`endIdx` in order, one line each, between 1 and `PageSize` lines, labels the
`i`-th line with `offset + i + 1` when `ShowNumbers` is set, and marks with ">"
the one line whose option is `Options[cursor]`, every other line with a blank.
The bound on `len` says that it is a value of type `int`. -/
theorem View_renders_window (render : Render) (m : listModel)
    (hlen : len m.prompt.Options ≤ intMax)
    (hinv : m.SpecInv) (hfit : m.offset + m.prompt.PageSize ≤ intMax) :
    m.endIdx = min (m.offset + m.prompt.PageSize) (len m.prompt.Options) ∧
    0 ≤ m.offset ∧ m.offset ≤ m.endIdx ∧ m.endIdx ≤ len m.prompt.Options ∧
    ∃ visible lines,
      m.visibleOptions = some visible ∧
      visible = (m.prompt.Options.drop m.offset.toNat).take (m.endIdx - m.offset).toNat ∧
      len visible = m.endIdx - m.offset ∧ 1 ≤ len visible ∧
      len visible ≤ m.prompt.PageSize ∧
      (∀ i, i < visible.length →
        visible.get? i = m.prompt.Options.get? (m.offset.toNat + i)) ∧
      m.optionLines render = some lines ∧
      lines.length = visible.length ∧
      lines = visible.enum.map (fun io =>
        (if m.offset + (io.1 : Int) = m.cursor then ">".toList else " ".toList)
          ++ " ".toList
          ++ (if m.prompt.ShowNumbers then fmtInt (m.offset + (io.1 : Int) + 1) ++ ") ".toList
              else [])
          ++ render (if m.offset + (io.1 : Int) = m.cursor then m.prompt.Style.FocusedStyle
              else m.prompt.Style.UnfocusedStyle) io.2
          ++ "\n".toList) ∧
      m.View render
        = some (render m.prompt.Style.QuestionStyle m.prompt.Question ++ "\n".toList
            ++ lines.flatten) ∧
      (m.cursor - m.offset).toNat < visible.length ∧
      visible.get? (m.cursor - m.offset).toNat = index m.prompt.Options m.cursor ∧
      (∀ i, i < visible.length →
        (m.offset + (i : Int) = m.cursor ↔ i = (m.cursor - m.offset).toNat)) := by
  obtain ⟨h1, h2, h3, h4, h5⟩ := hinv
  have hadd : addInt m.offset m.prompt.PageSize = m.offset + m.prompt.PageSize := by
    unfold intMax at hlen hfit
    simp only [addInt, wrapInt]
    omega
  have hend : m.endIdx = min (m.offset + m.prompt.PageSize) (len m.prompt.Options) := by
    unfold listModel.endIdx
    simp only [hadd]
    split_ifs <;> omega
  have hoe : m.offset ≤ m.endIdx := by rw [hend]; omega
  have hen : m.endIdx ≤ len m.prompt.Options := by rw [hend]; omega
  have hvis : m.visibleOptions
      = some ((m.prompt.Options.drop m.offset.toNat).take (m.endIdx - m.offset).toNat) := by
    unfold listModel.visibleOptions sliceOf
    rw [if_pos ⟨h3, hoe, hen⟩]
  have hvlen : ((m.prompt.Options.drop m.offset.toNat).take
      (m.endIdx - m.offset).toNat).length = (m.endIdx - m.offset).toNat := by
    rw [List.length_take, List.length_drop]
    unfold len at hen
    omega
  have hlines : ∀ io ∈ ((m.prompt.Options.drop m.offset.toNat).take
      (m.endIdx - m.offset).toNat).enum,
      m.optionLine render (io.1 : Int) io.2 =
        (if m.offset + (io.1 : Int) = m.cursor then ">".toList else " ".toList)
          ++ " ".toList
          ++ (if m.prompt.ShowNumbers then fmtInt (m.offset + (io.1 : Int) + 1) ++ ") ".toList
              else [])
          ++ render (if m.offset + (io.1 : Int) = m.cursor then m.prompt.Style.FocusedStyle
              else m.prompt.Style.UnfocusedStyle) io.2
          ++ "\n".toList := by
    intro io hio
    have hlt := List.fst_lt_of_mem_enum hio
    rw [hvlen] at hlt
    have ha : addInt m.offset (io.1 : Int) = m.offset + (io.1 : Int) := by
      unfold intMax at hlen
      simp only [addInt, wrapInt]
      omega
    have hb : addInt (m.offset + (io.1 : Int)) 1 = m.offset + (io.1 : Int) + 1 := by
      unfold intMax at hlen
      simp only [addInt, wrapInt]
      omega
    unfold listModel.optionLine
    simp only [ha, hb]
  have hol : m.optionLines render = some
      (((m.prompt.Options.drop m.offset.toNat).take (m.endIdx - m.offset).toNat).enum.map
        (fun io =>
        (if m.offset + (io.1 : Int) = m.cursor then ">".toList else " ".toList)
          ++ " ".toList
          ++ (if m.prompt.ShowNumbers then fmtInt (m.offset + (io.1 : Int) + 1) ++ ") ".toList
              else [])
          ++ render (if m.offset + (io.1 : Int) = m.cursor then m.prompt.Style.FocusedStyle
              else m.prompt.Style.UnfocusedStyle) io.2
          ++ "\n".toList)) := by
    unfold listModel.optionLines
    rw [hvis]
    simp only [Option.some.injEq]
    exact List.map_congr_left hlines
  refine ⟨hend, h3, hoe, hen, _, _, hvis, rfl, ?_, ?_, ?_, ?_, hol, ?_, rfl, ?_, ?_, ?_, ?_⟩
  · unfold len
    rw [hvlen]
    omega
  · unfold len
    rw [hvlen]
    omega
  · unfold len
    rw [hvlen]
    omega
  · intro i hi
    rw [hvlen] at hi
    rw [List.get?_eq_getElem?, List.get?_eq_getElem?, List.getElem?_take_of_lt hi,
      List.getElem?_drop]
  · rw [List.length_map, List.enum_length]
  · unfold listModel.View
    rw [hol]
  · rw [hvlen]
    omega
  · have hlt : (m.cursor - m.offset).toNat < (m.endIdx - m.offset).toNat := by
      rw [hend]
      omega
    rw [List.get?_eq_getElem?, List.getElem?_take_of_lt hlt, List.getElem?_drop]
    unfold index
    rw [if_neg (by omega), List.get?_eq_getElem?]
    congr 1
    omega
  · intro i hi
    rw [hvlen] at hi
    omega

/-- Witness of C17, amended: the example list with three options per page, the
cursor on the fourth option and the window starting at the third. -/
theorem View_renders_window_witness :
    (len exampleScrolled.prompt.Options ≤ intMax ∧
      exampleScrolled.SpecInv ∧
      exampleScrolled.offset + exampleScrolled.prompt.PageSize ≤ intMax) ∧
    exampleScrolled.endIdx
      = min (exampleScrolled.offset + exampleScrolled.prompt.PageSize)
          (len exampleScrolled.prompt.Options) ∧
    exampleScrolled.View plainRender
      = some ("Choose an option:\n  3) Option 3\n> 4) Option 4\n  5) Option 5\n".toList) :=
  ⟨⟨by decide, by unfold listModel.SpecInv; decide, by decide⟩,
   (View_renders_window plainRender exampleScrolled
     (by decide) (by unfold listModel.SpecInv; decide) (by decide)).1,
   by decide⟩

/-! ### State carried from one run to the next -/

/-- What `Run` leaves in a text or password prompt does not depend on the keys
typed: it is the prompt with the seeded text input and the program handle.
List and confirmation prompts build their model from the configuration alone:
cursor `Selected` and offset 0, value `DefaultValue`. With a non-empty default
the buffer of a text or password prompt starts as the default. -/
theorem Run_starts_from_configuration (tiUpdate : TextInputUpdate) :
    (∀ (p : TextPrompt) term, (p.Run tiUpdate term).prompt = p.prepared) ∧
    (∀ (p : PasswordPrompt) term, (p.Run tiUpdate term).prompt = p.prepared) ∧
    (∀ p : TextPrompt, p.Default ≠ [] → p.initialModel.textInput.Value = p.Default) ∧
    (∀ p : PasswordPrompt, p.Default ≠ [] → p.initialModel.textInput.Value = p.Default) ∧
    (∀ p : TextPrompt, p.Default = [] →
      p.initialModel.textInput.Value = p.textInput.Value) ∧
    (∀ p : PasswordPrompt, p.Default = [] →
      p.initialModel.textInput.Value = p.textInput.Value) ∧
    (∀ p : ListPrompt, p.initialModel.cursor = p.Selected ∧ p.initialModel.offset = 0) ∧
    (∀ p : ConfirmPrompt, p.initialModel.value = p.DefaultValue) := by
  refine ⟨?_, ?_, ?_, ?_, ?_, ?_, ?_, ?_⟩
  · intro p term
    unfold TextPrompt.Run
    dsimp only
    split <;> rfl
  · intro p term
    unfold PasswordPrompt.Run
    dsimp only
    split <;> rfl
  · intro p h
    unfold TextPrompt.initialModel TextPrompt.prepared
    simp only [h, ne_eq, not_false_eq_true, if_true]
    rfl
  · intro p h
    unfold PasswordPrompt.initialModel PasswordPrompt.prepared
    simp only [h, ne_eq, not_false_eq_true, if_true]
    rfl
  · intro p h
    unfold TextPrompt.initialModel TextPrompt.prepared
    simp only [h, ne_eq, not_true_eq_false, if_false]
  · intro p h
    unfold PasswordPrompt.initialModel PasswordPrompt.prepared
    simp only [h, ne_eq, not_true_eq_false, if_false]
  · intro p
    exact ⟨rfl, rfl⟩
  · intro p
    rfl

/-- C18, at the failing input. A text prompt runs once with the default "abc";
the default is then cleared. The next run does not start from the empty buffer:
the text input of the prompt still holds "abc", so the model starts with "abc"
and Enter alone returns "abc". The same holds for a password prompt. -/
theorem cleared_default_keeps_old_seed :
    (exampleTextRerun.Default = [] ∧
      exampleTextRerun.initialModel.textInput.Value = "abc".toList ∧
      (exampleTextRerun.Run appendRunes [Input.msg (Msg.key keyEnter)]).result
        = RunResult.returned (Value.str "abc".toList) none) ∧
    (examplePasswordRerun.Default = [] ∧
      examplePasswordRerun.initialModel.textInput.Value = "abc".toList ∧
      (examplePasswordRerun.Run appendRunes [Input.msg (Msg.key keyEnter)]).result
        = RunResult.returned (Value.str "abc".toList) none) := by
  refine ⟨⟨rfl, ?_, ?_⟩, ⟨rfl, ?_, ?_⟩⟩ <;> decide

/-! ### A pre-selected option -/

/-- C19, at the failing input. Ten options, the default page size 7, and the
ninth option pre-selected (`Selected = 8`): the model `Run` builds has cursor 8
and offset 0, so the cursor is not below `offset + PageSize` and the invariant
fails; the first view shows the options 1 to 7, none of them marked; after "up"
the cursor is 7 and the window still starts at 0. -/
theorem preselected_option_outside_window :
    (1 ≤ len examplePreselected.Options ∧ 1 ≤ examplePreselected.PageSize ∧
      0 ≤ examplePreselected.Selected ∧
      examplePreselected.Selected < len examplePreselected.Options) ∧
    examplePreselected.initialModel.cursor = 8 ∧
    examplePreselected.initialModel.offset = 0 ∧
    ¬ (examplePreselected.initialModel.cursor
        < examplePreselected.initialModel.offset + examplePreselected.PageSize) ∧
    ¬ examplePreselected.initialModel.Inv ∧
    examplePreselected.initialModel.View plainRender
      = some ("Choose an option:\n  1) Option 1\n  2) Option 2\n  3) Option 3\n  4) Option 4\n  5) Option 5\n  6) Option 6\n  7) Option 7\n".toList) ∧
    (listModel.Update examplePreselected.initialModel (Msg.key keyUp)).1.cursor = 7 ∧
    (listModel.Update examplePreselected.initialModel (Msg.key keyUp)).1.offset = 0 ∧
    ¬ (listModel.Update examplePreselected.initialModel (Msg.key keyUp)).1.Inv := by
  refine ⟨by decide, by decide, by decide, by decide, ?_, by decide, by decide, by decide, ?_⟩
  · unfold listModel.Inv
    decide
  · unfold listModel.Inv
    decide

/-- A pre-selected option on the first page: with `0 ≤ Selected < n` and
`Selected < PageSize` the model `Run` builds satisfies the invariant, and so
does every state reached from it. -/
theorem preselected_on_first_page_keeps_invariant (p : ListPrompt) (msgs : List Msg)
    (hlen : len p.Options ≤ intMax) (hps2 : p.PageSize ≤ intMax)
    (h0 : 0 ≤ p.Selected) (h1 : p.Selected < len p.Options)
    (h2 : p.Selected < p.PageSize) :
    (p.initialModel.feed msgs).Inv := by
  have hinit : p.initialModel.Inv := by
    unfold listModel.Inv ListPrompt.initialModel
    simp only [ListPrompt.prepared, addInt, wrapInt]
    unfold intMax at hps2
    refine ⟨h0, h1, le_refl _, h0, ?_⟩
    omega
  have hend : p.initialModel.offset + p.initialModel.prompt.PageSize
      ≤ max p.initialModel.prompt.PageSize (len p.initialModel.prompt.Options) := by
    show (0 : Int) + p.PageSize ≤ max p.PageSize (len p.Options)
    omega
  exact (listModel_feed_keeps msgs p.initialModel hlen (by show 1 ≤ p.PageSize; omega) hps2
    hinit hend).1

end Questionary
